import Mathlib

/-!
Shallow embedding of the shadowfs checkpoint/restore engine
(`src/shadowfs/checkpoint.py`, `src/shadowfs/session.py`).

Python dictionaries are modelled as insertion-ordered association lists,
machine-independent byte strings as `List Nat`, and SHA-256 is implemented
directly over those bytes so that checkpoint ids and snapshot hashes are
computed exactly as the source computes them.
-/

set_option maxRecDepth 40000
set_option maxHeartbeats 2000000

namespace ShadowFS

/-! ## Bytes and UTF-8 (Python `str.encode()`) -/

/-- UTF-8 encoding of a single character, as a list of byte values.
Matches Python's `str.encode()` per code point. -/
def utf8EncodeChar (c : Char) : List Nat :=
  let v := c.toNat
  if v < 0x80 then [v]
  else if v < 0x800 then
    [0xC0 ||| (v >>> 6), 0x80 ||| (v &&& 0x3F)]
  else if v < 0x10000 then
    [0xE0 ||| (v >>> 12), 0x80 ||| ((v >>> 6) &&& 0x3F), 0x80 ||| (v &&& 0x3F)]
  else
    [0xF0 ||| (v >>> 18), 0x80 ||| ((v >>> 12) &&& 0x3F),
     0x80 ||| ((v >>> 6) &&& 0x3F), 0x80 ||| (v &&& 0x3F)]

/-- UTF-8 bytes of a string: Python `s.encode()`. -/
def utf8Bytes (s : String) : List Nat := s.data.flatMap utf8EncodeChar

/-! ## SHA-256 over byte lists (Python `hashlib.sha256`) -/

/-- Truncate to a 32-bit word. -/
def w32 (n : Nat) : Nat := n % 4294967296

/-- 32-bit right rotation. -/
def rotr (n x : Nat) : Nat := w32 ((x >>> n) ||| (x <<< (32 - n)))

def sha256K : List Nat :=
  [1116352408, 1899447441, 3049323471, 3921009573, 961987163, 1508970993,
   2453635748, 2870763221, 3624381080, 310598401, 607225278, 1426881987,
   1925078388, 2162078206, 2614888103, 3248222580, 3835390401, 4022224774,
   264347078, 604807628, 770255983, 1249150122, 1555081692, 1996064986,
   2554220882, 2821834349, 2952996808, 3210313671, 3336571891, 3584528711,
   113926993, 338241895, 666307205, 773529912, 1294757372, 1396182291,
   1695183700, 1986661051, 2177026350, 2456956037, 2730485921, 2820302411,
   3259730800, 3345764771, 3516065817, 3600352804, 4094571909, 275423344,
   430227734, 506948616, 659060556, 883997877, 958139571, 1322822218,
   1537002063, 1747873779, 1955562222, 2024104815, 2227730452, 2361852424,
   2428436474, 2756734187, 3204031479, 3329325298]

def sha256H0 : List Nat :=
  [1779033703, 3144134277, 1013904242, 2773480762,
   1359893119, 2600822924, 528734635, 1541459225]

/-- Message padding: append 0x80, zero bytes to 56 mod 64, then the
64-bit big-endian bit length. -/
def sha256Pad (msg : List Nat) : List Nat :=
  let L := msg.length
  let padZeros := (55 + 64 - (L % 64)) % 64
  let bitLen := L * 8
  msg ++ [0x80] ++ List.replicate padZeros 0 ++
    [(bitLen >>> 56) &&& 0xFF, (bitLen >>> 48) &&& 0xFF, (bitLen >>> 40) &&& 0xFF,
     (bitLen >>> 32) &&& 0xFF, (bitLen >>> 24) &&& 0xFF, (bitLen >>> 16) &&& 0xFF,
     (bitLen >>> 8) &&& 0xFF, bitLen &&& 0xFF]

/-- Split bytes into big-endian 32-bit words (length must be a multiple of 4). -/
def bytesToWords : List Nat → List Nat
  | b0 :: b1 :: b2 :: b3 :: rest =>
      ((b0 <<< 24) ||| (b1 <<< 16) ||| (b2 <<< 8) ||| b3) :: bytesToWords rest
  | _ => []

/-- Message-schedule extension: from the 16 block words to 64 words. -/
def sha256Extend (ws : List Nat) (t : Nat) : List Nat :=
  match t with
  | 0 => ws
  | t + 1 =>
    let ws := sha256Extend ws t
    let i := ws.length
    let wm2 := ws.getD (i - 2) 0
    let wm7 := ws.getD (i - 7) 0
    let wm15 := ws.getD (i - 15) 0
    let wm16 := ws.getD (i - 16) 0
    let s0 := (rotr 7 wm15) ^^^ (rotr 18 wm15) ^^^ (wm15 >>> 3)
    let s1 := (rotr 17 wm2) ^^^ (rotr 19 wm2) ^^^ (wm2 >>> 10)
    ws ++ [w32 (wm16 + s0 + wm7 + s1)]

/-- One compression round. State is (a, b, c, d, e, f, g, h). -/
def sha256Round (st : List Nat) (k w : Nat) : List Nat :=
  match st with
  | [a, b, c, d, e, f, g, h] =>
    let S1 := (rotr 6 e) ^^^ (rotr 11 e) ^^^ (rotr 25 e)
    let ch := (e &&& f) ^^^ ((0xFFFFFFFF ^^^ e) &&& g)
    let t1 := w32 (h + S1 + ch + k + w)
    let S0 := (rotr 2 a) ^^^ (rotr 13 a) ^^^ (rotr 22 a)
    let maj := (a &&& b) ^^^ (a &&& c) ^^^ (b &&& c)
    let t2 := w32 (S0 + maj)
    [w32 (t1 + t2), a, b, c, w32 (d + t1), e, f, g]
  | st => st

/-- Compress one 64-byte block into the running hash state. -/
def sha256Block (h : List Nat) (block : List Nat) : List Nat :=
  let ws := sha256Extend (bytesToWords block) 48
  let st := (List.zip sha256K ws).foldl (fun st kw => sha256Round st kw.1 kw.2) h
  (List.zip h st).map (fun p => w32 (p.1 + p.2))

/-- Fold the padded message's 64-byte blocks through the compression.
Structural recursion on a fuel bound (the byte count, ample since every
step consumes 64 bytes). -/
def sha256BlocksGo (fuel : Nat) (h : List Nat) (bytes : List Nat) : List Nat :=
  match fuel, bytes with
  | _, [] => h
  | 0, _ => h
  | fuel + 1, bytes =>
      sha256BlocksGo fuel (sha256Block h (bytes.take 64)) (bytes.drop 64)

def sha256Blocks (h : List Nat) (bytes : List Nat) : List Nat :=
  sha256BlocksGo bytes.length h bytes

/-- SHA-256 digest of a byte list, as the 32 digest bytes. -/
def sha256 (msg : List Nat) : List Nat :=
  let hs := sha256Blocks sha256H0 (sha256Pad msg)
  hs.flatMap (fun wd => [(wd >>> 24) &&& 0xFF, (wd >>> 16) &&& 0xFF, (wd >>> 8) &&& 0xFF, wd &&& 0xFF])

/-- One lowercase hex digit. -/
def hexDigit (n : Nat) : Char :=
  if n < 10 then Char.ofNat (48 + n) else Char.ofNat (87 + n)

/-- Lowercase hex string of a byte list: Python's `.hexdigest()`. -/
def hexdigest (bytes : List Nat) : String :=
  String.mk (bytes.flatMap (fun b => [hexDigit ((b >>> 4) &&& 0xF), hexDigit (b &&& 0xF)]))

/-- `hashlib.sha256(s.encode()).hexdigest()`. -/
def sha256HexOfString (s : String) : String := hexdigest (sha256 (utf8Bytes s))

/-! ## Python dictionaries as insertion-ordered association lists -/

/-- Insertion-ordered string-keyed map, modelling a Python `dict`. -/
abbrev Dict (α : Type) := List (String × α)

/-- `d.get(k)` / `d[k]` lookup: first entry with the key. -/
def dget? {α : Type} (d : Dict α) (k : String) : Option α :=
  match d with
  | [] => none
  | (k', v) :: rest => if k' = k then some v else dget? rest k

/-- `k in d`. -/
def dcontains {α : Type} (d : Dict α) (k : String) : Bool :=
  (dget? d k).isSome

/-- `d[k] = v`: an existing key keeps its position with the value replaced,
a new key is appended (Python dict insertion-order semantics). -/
def dinsert {α : Type} (d : Dict α) (k : String) (v : α) : Dict α :=
  if dcontains d k then d.map (fun p => if p.1 = k then (k, v) else p)
  else d ++ [(k, v)]

/-- `del d[k]` / `d.pop(k, None)`: drop the entry with key `k`. -/
def derase {α : Type} (d : Dict α) (k : String) : Dict α :=
  d.filter (fun p => p.1 ≠ k)

/-- `list(d.keys())` in insertion order. -/
def dkeys {α : Type} (d : Dict α) : List String := d.map Prod.fst

/-- Python `list.remove(x)`: removes the first occurrence only. -/
def listRemoveFirst : List String → String → List String
  | [], _ => []
  | x :: xs, y => if x = y then xs else x :: listRemoveFirst xs y

/-! ## FileSnapshot (`checkpoint.py` lines 13-32) -/

structure FileSnapshot where
  path : String
  content : String
  sha : String
  size : Nat
deriving DecidableEq, Repr

/-- The `FileSnapshot` dataclass constructor followed by `__post_init__`:
a falsy `sha` (None or `""`) is replaced by the first 40 hex characters of
the SHA-256 of the UTF-8-encoded content, and a falsy `size` (0) by
`len(self.content)` — Python's `len` on `str`, i.e. the character count. -/
def FileSnapshot.make (path content : String) (sha : Option String) (size : Nat) :
    FileSnapshot :=
  let sha' := match sha with
    | none => (sha256HexOfString content).take 40
    | some s => if s = "" then (sha256HexOfString content).take 40 else s
  let size' := if size = 0 then content.length else size
  ⟨path, content, sha', size'⟩

/-- `FileSnapshot(path=path, content=content)` with default `sha`/`size`. -/
def mkFileSnapshot (path content : String) : FileSnapshot :=
  FileSnapshot.make path content none 0

/-- The dictionary produced by `asdict` in `FileSnapshot.to_dict`. -/
structure FileSnapshotDict where
  path : String
  content : String
  sha : Option String
  size : Nat
deriving DecidableEq, Repr

def FileSnapshot.to_dict (s : FileSnapshot) : FileSnapshotDict :=
  ⟨s.path, s.content, some s.sha, s.size⟩

/-- `FileSnapshot.from_dict`: `cls(**data)`, which re-runs `__post_init__`. -/
def FileSnapshot.from_dict (d : FileSnapshotDict) : FileSnapshot :=
  FileSnapshot.make d.path d.content d.sha d.size

/-! ## Checkpoint (`checkpoint.py` lines 35-126) -/

structure Checkpoint where
  id : String
  name : String
  description : String
  created_at : String
  files : Dict FileSnapshot
  metadata : Dict String
deriving DecidableEq, Repr

/-- The id computed inside `Checkpoint.create`:
`hashlib.sha256(f"{name}:{timestamp}".encode()).hexdigest()[:12]`. -/
def checkpointIdOf (name timestamp : String) : String :=
  (sha256HexOfString (name ++ ":" ++ timestamp)).take 12

/-- `Checkpoint.create`. The timestamp (`datetime.utcnow().isoformat()+"Z"`)
is environment-dependent, so the embedding takes it as an input; the id is
computed from it exactly as the source does. `metadata or {}` maps `None`
to the empty dict. -/
def Checkpoint.create (timestamp name description : String)
    (files : Option (Dict String)) (metadata : Option (Dict String)) : Checkpoint :=
  let file_snapshots := match files with
    | none => []
    | some fs => fs.map (fun p => (p.1, mkFileSnapshot p.1 p.2))
  { id := checkpointIdOf name timestamp
    name := name
    description := description
    created_at := timestamp
    files := file_snapshots
    metadata := metadata.getD [] }

def Checkpoint.get_file (cp : Checkpoint) (path : String) : Option FileSnapshot :=
  dget? cp.files path

def Checkpoint.list_files (cp : Checkpoint) : List String :=
  dkeys cp.files

/-- The dictionary produced by `Checkpoint.to_dict`. -/
structure CheckpointDict where
  id : String
  name : String
  description : String
  created_at : String
  files : Dict FileSnapshotDict
  metadata : Dict String
deriving DecidableEq, Repr

def Checkpoint.to_dict (cp : Checkpoint) : CheckpointDict :=
  ⟨cp.id, cp.name, cp.description, cp.created_at,
   cp.files.map (fun p => (p.1, p.2.to_dict)), cp.metadata⟩

def Checkpoint.from_dict (d : CheckpointDict) : Checkpoint :=
  ⟨d.id, d.name, d.description, d.created_at,
   d.files.map (fun p => (p.1, FileSnapshot.from_dict p.2)), d.metadata⟩

/-! ## CheckpointManager (`checkpoint.py` lines 129-404) -/

structure CheckpointManager where
  max_checkpoints : Nat
  checkpoints : Dict Checkpoint
  checkpoint_order : List String
  current_state : Dict String
deriving DecidableEq, Repr

/-- `CheckpointManager.__init__`. -/
def CheckpointManager.init (max_checkpoints : Nat) : CheckpointManager :=
  ⟨max_checkpoints, [], [], []⟩

/-- The `while len(order) > max: order.pop(0); byId.pop(oldest, None)` loop
of `_enforce_max_checkpoints`. -/
def enforceGo (maxc : Nat) : List String → Dict Checkpoint → List String × Dict Checkpoint
  | [], cps => ([], cps)
  | oldest :: rest, cps =>
    if (oldest :: rest).length > maxc then enforceGo maxc rest (derase cps oldest)
    else (oldest :: rest, cps)

def CheckpointManager.enforce_max_checkpoints (m : CheckpointManager) : CheckpointManager :=
  let r := enforceGo m.max_checkpoints m.checkpoint_order m.checkpoints
  { m with checkpoint_order := r.1, checkpoints := r.2 }

/-- `CheckpointManager.create_checkpoint`: snapshot the given files (or the
current state when `files is None`), register the checkpoint in both the id
map and the order list, then enforce the capacity bound. -/
def CheckpointManager.create_checkpoint (m : CheckpointManager)
    (timestamp name description : String)
    (files : Option (Dict String)) (metadata : Option (Dict String)) :
    Checkpoint × CheckpointManager :=
  let snapshot_files := match files with
    | some fs => fs
    | none => m.current_state
  let checkpoint := Checkpoint.create timestamp name description (some snapshot_files) metadata
  let m' := { m with checkpoints := dinsert m.checkpoints checkpoint.id checkpoint,
                     checkpoint_order := m.checkpoint_order ++ [checkpoint.id] }
  (checkpoint, m'.enforce_max_checkpoints)

def CheckpointManager.get_checkpoint (m : CheckpointManager) (checkpoint_id : String) :
    Option Checkpoint :=
  dget? m.checkpoints checkpoint_id

/-- `list_checkpoints`: newest first, skipping ids missing from the map. -/
def CheckpointManager.list_checkpoints (m : CheckpointManager) : List Checkpoint :=
  m.checkpoint_order.reverse.filterMap (fun cp_id => dget? m.checkpoints cp_id)

/-- `files_to_restore = paths or checkpoint.list_files()`: Python treats an
empty `paths` list as falsy, so both `None` and `[]` select all files. -/
def filesToRestore (cp : Checkpoint) (paths : Option (List String)) : List String :=
  match paths with
  | none => cp.list_files
  | some ps => if ps.isEmpty then cp.list_files else ps

/-- One iteration of the restore loop: copy the snapshot's content into the
result map and the current state when the path has a snapshot. -/
def restoreStep (cp : Checkpoint) (acc : Dict String × Dict String) (path : String) :
    Dict String × Dict String :=
  match cp.get_file path with
  | some snapshot => (dinsert acc.1 path snapshot.content, dinsert acc.2 path snapshot.content)
  | none => acc

/-- `restore_checkpoint`: raises `ValueError("Checkpoint not found: ...")`
on an unknown id, otherwise restores each requested path that has a
snapshot, silently skipping the rest. -/
def CheckpointManager.restore_checkpoint (m : CheckpointManager) (checkpoint_id : String)
    (paths : Option (List String)) : Except String (Dict String × CheckpointManager) :=
  match dget? m.checkpoints checkpoint_id with
  | none => .error ("Checkpoint not found: " ++ checkpoint_id)
  | some checkpoint =>
    let r := (filesToRestore checkpoint paths).foldl (restoreStep checkpoint) ([], m.current_state)
    .ok (r.1, { m with current_state := r.2 })

/-- An entry of the map returned by `diff_checkpoint`. -/
structure DiffEntry where
  status : String
  old_content : Option String
  new_content : Option String
deriving DecidableEq, Repr

/-- First loop of `diff_checkpoint`: modified/deleted entries. -/
def diffStepOld (current : Dict String) (acc : Dict DiffEntry) (p : String × FileSnapshot) :
    Dict DiffEntry :=
  match dget? current p.1 with
  | some c =>
    if c ≠ p.2.content then dinsert acc p.1 ⟨"modified", some p.2.content, some c⟩ else acc
  | none => dinsert acc p.1 ⟨"deleted", some p.2.content, none⟩

/-- Second loop of `diff_checkpoint`: added entries. -/
def diffStepNew (cpFiles : Dict FileSnapshot) (acc : Dict DiffEntry) (p : String × String) :
    Dict DiffEntry :=
  if dcontains cpFiles p.1 then acc
  else dinsert acc p.1 ⟨"added", none, some p.2⟩

/-- `diff_checkpoint`: compare a checkpoint against `current_files` (or the
internal current state when `None`). -/
def CheckpointManager.diff_checkpoint (m : CheckpointManager) (checkpoint_id : String)
    (current_files : Option (Dict String)) : Except String (Dict DiffEntry) :=
  match dget? m.checkpoints checkpoint_id with
  | none => .error ("Checkpoint not found: " ++ checkpoint_id)
  | some checkpoint =>
    let current := current_files.getD m.current_state
    let diff := checkpoint.files.foldl (diffStepOld current) []
    .ok (current.foldl (diffStepNew checkpoint.files) diff)

/-- `delete_checkpoint`: removes from both structures, returns whether the
id existed. `list.remove` drops only the first occurrence. -/
def CheckpointManager.delete_checkpoint (m : CheckpointManager) (checkpoint_id : String) :
    Bool × CheckpointManager :=
  if dcontains m.checkpoints checkpoint_id then
    (true, { m with checkpoints := derase m.checkpoints checkpoint_id,
                    checkpoint_order := listRemoveFirst m.checkpoint_order checkpoint_id })
  else (false, m)

def CheckpointManager.update_current_state (m : CheckpointManager) (path content : String) :
    CheckpointManager :=
  { m with current_state := dinsert m.current_state path content }

def CheckpointManager.remove_from_current_state (m : CheckpointManager) (path : String) :
    CheckpointManager :=
  { m with current_state := derase m.current_state path }

/-! ## Serialization (`to_json` / `from_json`)

The JSON text layer is modelled structurally: `json.dumps`/`json.loads`
round-trips JSON-safe dictionaries exactly, so the blob keeps the shape of
the Python dict passed to `json.dumps`. -/

structure StoreBlob where
  checkpoints : Dict CheckpointDict
  order : List String
  current_state : Dict String
deriving DecidableEq, Repr

def CheckpointManager.to_json (m : CheckpointManager) : StoreBlob :=
  ⟨m.checkpoints.map (fun p => (p.1, p.2.to_dict)), m.checkpoint_order, m.current_state⟩

/-- `from_json`: a fresh manager with the given capacity (the source's
default is 50), order and current state taken from the blob, and each
checkpoint deserialized and inserted in blob order. -/
def CheckpointManager.from_json (blob : StoreBlob) (max_checkpoints : Nat) :
    CheckpointManager :=
  { max_checkpoints := max_checkpoints
    checkpoint_order := blob.order
    current_state := blob.current_state
    checkpoints := blob.checkpoints.foldl
      (fun acc p => dinsert acc p.1 (Checkpoint.from_dict p.2)) [] }

/-! ## Session (`session.py`)

The operation log. `_current_call` is a Python object reference into
`_llm_calls`; the embedding represents it as an index into that list. -/

structure LLMCall where
  id : String
  checkpoint_id : String
  model : String
  prompt_preview : String
  timestamp : String
  status : String
  response_preview : Option String
  files_modified : List String
  duration_ms : Option Nat
deriving DecidableEq, Repr

structure Session where
  checkpoint_manager : CheckpointManager
  llm_calls : List LLMCall
  call_counter : Nat
  tracked_files : Dict String
  current_call : Option Nat
deriving DecidableEq, Repr

/-- `Session.__init__` for a workspace with no trackable files (the
workspace scan is disk I/O; the embedding starts from an empty tracked
set, files enter via `track_file`). -/
def Session.init (max_checkpoints : Nat) : Session :=
  ⟨CheckpointManager.init max_checkpoints, [], 0, [], none⟩

/-- `_generate_call_id`: `f"call-{n:04d}"` (zero-padded to 4 digits). -/
def formatCallId (n : Nat) : String :=
  let s := toString n
  "call-" ++ (if s.length < 4 then String.mk (List.replicate (4 - s.length) '0') ++ s else s)

/-- `Session.track_file` with the content supplied and a workspace-relative
path (the disk-reading and path-relativizing branches are I/O). Updates the
tracked set and the store's current state, and appends the path to the
active call's `files_modified` on first touch. -/
def Session.track_file (s : Session) (path content : String) : Session :=
  let s' := { s with tracked_files := dinsert s.tracked_files path content,
                     checkpoint_manager :=
                       s.checkpoint_manager.update_current_state path content }
  match s'.current_call with
  | none => s'
  | some idx =>
    match s'.llm_calls[idx]? with
    | none => s'
    | some call =>
      if path ∈ call.files_modified then s'
      else { s' with llm_calls :=
        s'.llm_calls.set idx { call with files_modified := call.files_modified ++ [path] } }

/-- `description or f"Before {model} call"` (empty string is falsy). -/
def checkpointNameOf (model : String) (description : Option String) : String :=
  match description with
  | none => "Before " ++ model ++ " call"
  | some d => if d = "" then "Before " ++ model ++ " call" else d

/-- Entry half of the `llm_call` context manager: checkpoint the tracked
files, append a `pending` record, and make it the current call. -/
def Session.llm_call_begin (s : Session) (timestamp model prompt : String)
    (description : Option String) : Session × LLMCall :=
  let call_counter := s.call_counter + 1
  let call_id := formatCallId call_counter
  let checkpoint_name := checkpointNameOf model description
  let r := s.checkpoint_manager.create_checkpoint timestamp checkpoint_name
    ("Auto-checkpoint before LLM call: " ++ prompt.take 100 ++ "...")
    (some s.tracked_files)
    (some [("call_id", call_id), ("model", model), ("type", "pre-llm-call")])
  let llm_call : LLMCall :=
    { id := call_id
      checkpoint_id := r.1.id
      model := model
      prompt_preview := prompt.take 200 ++ (if prompt.length > 200 then "..." else "")
      timestamp := timestamp
      status := "pending"
      response_preview := none
      files_modified := []
      duration_ms := none }
  ({ s with checkpoint_manager := r.2
            call_counter := call_counter
            llm_calls := s.llm_calls ++ [llm_call]
            current_call := some s.llm_calls.length }, llm_call)

/-- Exit half of the bracket: the `except` handler sets `failed`, normal
exit sets `completed`; the `finally` block records `duration_ms` and clears
the current call on every path. -/
def Session.llm_call_finish (s : Session) (idx : Nat) (failed : Bool) (duration_ms : Nat) :
    Session :=
  match s.llm_calls[idx]? with
  | none => { s with current_call := none }
  | some call =>
    let call' := { call with status := if failed then "failed" else "completed",
                             duration_ms := some duration_ms }
    { s with llm_calls := s.llm_calls.set idx call', current_call := none }

/-- Actions a bracketed operation body performs through the session API
(the spec's write path: callers mutate tracked content). -/
inductive SessionAct where
  | track (path content : String)
  | updateState (path content : String)
  | removeState (path : String)
deriving DecidableEq, Repr

def Session.applyAct (s : Session) : SessionAct → Session
  | .track p c => s.track_file p c
  | .updateState p c =>
      { s with checkpoint_manager := s.checkpoint_manager.update_current_state p c }
  | .removeState p =>
      { s with checkpoint_manager := s.checkpoint_manager.remove_from_current_state p }

def Session.runActs (s : Session) (acts : List SessionAct) : Session :=
  acts.foldl Session.applyAct s

/-- The whole `llm_call` context manager around a body that performs
`body` actions and then either returns normally (`exc = none`) or raises
`exc = some e`. The wall-clock duration is an environment input. Returns
the final session and the exception propagated to the caller. -/
def Session.llm_call (s : Session) (timestamp model prompt : String)
    (description : Option String) (body : List SessionAct) (exc : Option String)
    (duration_ms : Nat) : Session × Option String :=
  let r := s.llm_call_begin timestamp model prompt description
  let idx := r.1.llm_calls.length - 1
  let s' := r.1.runActs body
  (s'.llm_call_finish idx exc.isSome duration_ms, exc)

/-! ## Sequences of `create_checkpoint` calls and reachable stores -/

/-- The arguments of one `create_checkpoint` call, the environment-supplied
timestamp included. -/
structure CreateInput where
  timestamp : String
  name : String
  description : String
  files : Option (Dict String)
  metadata : Option (Dict String)

/-- The id `Checkpoint.create` derives for this call. -/
def CreateInput.genId (ci : CreateInput) : String :=
  checkpointIdOf ci.name ci.timestamp

def applyCreate (m : CheckpointManager) (ci : CreateInput) : CheckpointManager :=
  (m.create_checkpoint ci.timestamp ci.name ci.description ci.files ci.metadata).2

/-- A sequence of `create_checkpoint` calls. -/
def runCreates (m : CheckpointManager) (inputs : List CreateInput) : CheckpointManager :=
  inputs.foldl applyCreate m

/-- Store states reachable through the public mutating interface.
The `create` rule carries the spec's idealization that derived checkpoint
ids do not collide (collision probability is treated as negligible and not
handled by the source). -/
inductive Reachable : CheckpointManager → Prop where
  | init (maxc : Nat) : Reachable (CheckpointManager.init maxc)
  | create (m : CheckpointManager) (ts name desc : String)
      (files metadata : Option (Dict String)) :
      Reachable m → checkpointIdOf name ts ∉ m.checkpoint_order →
      Reachable (m.create_checkpoint ts name desc files metadata).2
  | delete (m : CheckpointManager) (cid : String) :
      Reachable m → Reachable (m.delete_checkpoint cid).2
  | restore (m : CheckpointManager) (cid : String) (paths : Option (List String))
      (r : Dict String) (m' : CheckpointManager) :
      Reachable m → m.restore_checkpoint cid paths = .ok (r, m') → Reachable m'
  | update (m : CheckpointManager) (p c : String) :
      Reachable m → Reachable (m.update_current_state p c)
  | removeState (m : CheckpointManager) (p : String) :
      Reachable m → Reachable (m.remove_from_current_state p)

/-- A `FileSnapshot` as `__post_init__` leaves it: `sha` is truthy, and
`size` is falsy only when the content is empty. Every snapshot the Python
class can produce satisfies this. -/
abbrev SnapshotWF (s : FileSnapshot) : Prop :=
  s.sha ≠ "" ∧ (s.size = 0 → s.content = "")

abbrev CheckpointWF (cp : Checkpoint) : Prop :=
  ∀ e ∈ cp.files, SnapshotWF e.2

abbrev ManagerWF (m : CheckpointManager) : Prop :=
  ∀ e ∈ m.checkpoints, CheckpointWF e.2

/-! ## Concrete instances used to witness the theorems -/

def fifoInputs : List CreateInput :=
  [⟨"t1", "c1", "", some [("a", "1")], none⟩,
   ⟨"t2", "c2", "", some [("a", "2")], none⟩,
   ⟨"t3", "c3", "", some [("a", "3")], none⟩]

def mC2 : CheckpointManager :=
  ((CheckpointManager.init 3).create_checkpoint "t1" "n1" "" (some [("a", "x")]) none).2

def mC3 : CheckpointManager :=
  ((CheckpointManager.init 5).create_checkpoint "t" "r" ""
    (some [("a", "orig"), ("b", "y")]) none).2

def cpC3 : Checkpoint :=
  ((CheckpointManager.init 5).create_checkpoint "t" "r" ""
    (some [("a", "orig"), ("b", "y")]) none).1

def mC4 : CheckpointManager :=
  ((CheckpointManager.init 5).create_checkpoint "td" "nd" ""
    (some [("a", "x"), ("b", "y")]) none).2

def cpC4 : Checkpoint :=
  ((CheckpointManager.init 5).create_checkpoint "td" "nd" ""
    (some [("a", "x"), ("b", "y")]) none).1

def liveC4 : Dict String := [("a", "z"), ("c", "w")]

def mC5 : CheckpointManager :=
  ((CheckpointManager.init 4).create_checkpoint "t5" "n5" "d5"
    (some [("f.py", "print(1)")]) (some [("k", "v")])).2

def nestedSession1 : Session :=
  ((Session.init 100).llm_call_begin "t1" "m" "p" none).1

def nestedSession2 : Session :=
  (nestedSession1.llm_call_begin "t2" "m" "p2" none).1

def mC10 : CheckpointManager :=
  ((CheckpointManager.init 6).create_checkpoint "t10" "n10" ""
    (some [("x", "1"), ("y", "2")]) none).2

def cpC10 : Checkpoint :=
  ((CheckpointManager.init 6).create_checkpoint "t10" "n10" ""
    (some [("x", "1"), ("y", "2")]) none).1

/-! ## Dictionary lemmas -/

theorem dget?_isSome_iff {α : Type} (d : Dict α) (k : String) :
    (dget? d k).isSome ↔ k ∈ dkeys d := by
  induction d with
  | nil => simp [dget?, dkeys]
  | cons p rest ih =>
    obtain ⟨k', v⟩ := p
    by_cases h : k' = k <;> simp [dget?, dkeys, h, ih]
    exact fun h' => (h h'.symm).elim

theorem dget?_eq_none_iff {α : Type} (d : Dict α) (k : String) :
    dget? d k = none ↔ k ∉ dkeys d := by
  rw [← dget?_isSome_iff]
  cases dget? d k <;> simp

theorem dcontains_iff {α : Type} (d : Dict α) (k : String) :
    dcontains d k = true ↔ k ∈ dkeys d := by
  rw [dcontains, dget?_isSome_iff]

theorem dinsert_of_not_mem {α : Type} {d : Dict α} {k : String} (v : α)
    (h : k ∉ dkeys d) : dinsert d k v = d ++ [(k, v)] := by
  rw [dinsert, if_neg]
  simp [dcontains_iff, h]

theorem dget?_append {α : Type} (d₁ d₂ : Dict α) (k : String) :
    dget? (d₁ ++ d₂) k = match dget? d₁ k with
      | some v => some v
      | none => dget? d₂ k := by
  induction d₁ with
  | nil => simp [dget?]
  | cons p rest ih =>
    obtain ⟨k', v⟩ := p
    by_cases h : k' = k <;> simp [dget?, h, ih]

theorem dget?_append_right {α : Type} {d₁ : Dict α} {k : String} (d₂ : Dict α)
    (h : k ∉ dkeys d₁) : dget? (d₁ ++ d₂) k = dget? d₂ k := by
  rw [dget?_append, (dget?_eq_none_iff d₁ k).mpr h]

theorem dget?_map_update_self {α : Type} (d : Dict α) (k : String) (v : α)
    (hmem : k ∈ dkeys d) :
    dget? (d.map (fun p => if p.1 = k then (k, v) else p)) k = some v := by
  induction d with
  | nil => simp [dkeys] at hmem
  | cons p rest ih =>
    obtain ⟨q, w⟩ := p
    by_cases hq : q = k
    · subst hq
      rw [List.map_cons]
      show dget? ((if q = q then (q, v) else (q, w)) :: _) q = some v
      rw [if_pos rfl, dget?, if_pos rfl]
    · have hk : k ∈ dkeys rest := by
        rcases List.mem_cons.mp hmem with h | h
        · exact absurd h.symm hq
        · exact h
      rw [List.map_cons]
      show dget? ((if q = k then (k, v) else (q, w)) :: _) k = some v
      rw [if_neg hq, dget?, if_neg hq]
      exact ih hk

theorem dget?_map_update_ne {α : Type} (d : Dict α) (k : String) (v : α)
    {k' : String} (h : k' ≠ k) :
    dget? (d.map (fun p => if p.1 = k then (k, v) else p)) k' = dget? d k' := by
  induction d with
  | nil => rfl
  | cons p rest ih =>
    obtain ⟨q, w⟩ := p
    rw [List.map_cons]
    show dget? ((if q = k then (k, v) else (q, w)) :: _) k' = dget? ((q, w) :: rest) k'
    by_cases hq : q = k
    · subst hq
      rw [if_pos rfl, dget?, if_neg (fun hh : q = k' => h hh.symm), dget?,
        if_neg (fun hh : q = k' => h hh.symm)]
      exact ih
    · rw [if_neg hq, dget?, dget?]
      by_cases hq' : q = k'
      · rw [if_pos hq', if_pos hq']
      · rw [if_neg hq', if_neg hq']
        exact ih

theorem dget?_dinsert_self {α : Type} (d : Dict α) (k : String) (v : α) :
    dget? (dinsert d k v) k = some v := by
  rw [dinsert]
  by_cases h : dcontains d k = true
  · rw [if_pos h]
    exact dget?_map_update_self d k v ((dcontains_iff d k).mp h)
  · rw [if_neg h]
    have hmem : k ∉ dkeys d := fun hm => h ((dcontains_iff d k).mpr hm)
    rw [dget?_append_right _ hmem]
    simp [dget?]

theorem dget?_dinsert_ne {α : Type} (d : Dict α) {k k' : String} (v : α)
    (h : k' ≠ k) : dget? (dinsert d k v) k' = dget? d k' := by
  rw [dinsert]
  by_cases hc : dcontains d k = true
  · rw [if_pos hc]
    exact dget?_map_update_ne d k v h
  · rw [if_neg hc, dget?_append]
    cases hd : dget? d k' with
    | some v' => rfl
    | none => rw [dget?, if_neg (fun hh : k = k' => h hh.symm)]; rfl

theorem dkeys_append {α : Type} (d₁ d₂ : Dict α) :
    dkeys (d₁ ++ d₂) = dkeys d₁ ++ dkeys d₂ :=
  List.map_append _ _ _

theorem dkeys_drop {α : Type} (d : Dict α) (n : Nat) :
    dkeys (d.drop n) = (dkeys d).drop n :=
  List.map_drop _ _ _

theorem derase_cons {α : Type} (q : String) (v : α) (rest : Dict α) (k : String) :
    derase ((q, v) :: rest) k = if q = k then derase rest k else (q, v) :: derase rest k := by
  by_cases hq : q = k <;> simp [derase, List.filter_cons, hq]

theorem dget?_derase_ne {α : Type} (d : Dict α) {k k' : String} (h : k' ≠ k) :
    dget? (derase d k) k' = dget? d k' := by
  induction d with
  | nil => rfl
  | cons p rest ih =>
    obtain ⟨q, v⟩ := p
    rw [derase_cons]
    by_cases hq : q = k
    · subst hq
      rw [if_pos rfl, ih]
      simp [dget?, if_neg (fun hh : q = k' => h hh.symm)]
    · rw [if_neg hq]
      by_cases hq' : q = k' <;> simp [dget?, hq', ih]

theorem derase_of_not_mem {α : Type} {d : Dict α} {k : String} (h : k ∉ dkeys d) :
    derase d k = d := by
  induction d with
  | nil => rfl
  | cons p rest ih =>
    obtain ⟨q, v⟩ := p
    simp only [dkeys, List.map_cons, List.mem_cons] at h
    push_neg at h
    rw [derase_cons, if_neg (fun hh : q = k => h.1 hh.symm),
      ih (by simpa [dkeys] using h.2)]

theorem derase_cons_self {α : Type} (rest : Dict α) (k : String) (v : α)
    (h : k ∉ dkeys rest) : derase ((k, v) :: rest) k = rest := by
  rw [derase_cons, if_pos rfl]
  exact derase_of_not_mem h

theorem dkeys_derase {α : Type} (d : Dict α) (k : String) :
    dkeys (derase d k) = (dkeys d).filter (fun x => x ≠ k) := by
  induction d with
  | nil => rfl
  | cons p rest ih =>
    obtain ⟨q, v⟩ := p
    by_cases hq : q = k <;>
      simp [derase, dkeys, List.filter, hq, List.filter_cons] at ih ⊢ <;>
      simpa [derase, dkeys] using ih

theorem listRemoveFirst_eq_filter (l : List String) (a : String) (h : l.Nodup) :
    listRemoveFirst l a = l.filter (fun x => x ≠ a) := by
  induction l with
  | nil => rfl
  | cons x xs ih =>
    rw [List.nodup_cons] at h
    by_cases hx : x = a
    · subst hx
      rw [listRemoveFirst, if_pos rfl, List.filter_cons, if_neg (by simp)]
      exact (List.filter_eq_self.mpr (fun b hb => by
        simp only [ne_eq, decide_eq_true_eq]
        exact fun hba => h.1 (hba ▸ hb))).symm
    · rw [listRemoveFirst, if_neg hx, List.filter_cons, if_pos (by simpa using hx)]
      rw [ih h.2]

theorem dget?_eq_of_mem_nodup {α : Type} {d : Dict α} {k : String} {v : α}
    (hnd : (dkeys d).Nodup) (hm : (k, v) ∈ d) : dget? d k = some v := by
  induction d with
  | nil => simp at hm
  | cons p rest ih =>
    obtain ⟨q, w⟩ := p
    rw [dkeys, List.map_cons, List.nodup_cons] at hnd
    rcases List.mem_cons.mp hm with h | h
    · rw [Prod.mk.injEq] at h
      simp [dget?, h.1, h.2]
    · have hq : q ≠ k := by
        intro hqk
        subst hqk
        exact hnd.1 (List.mem_map.mpr ⟨(q, v), h, rfl⟩)
      rw [dget?, if_neg hq]
      exact ih hnd.2 h

theorem dkeys_map_pair {α β : Type} (d : Dict α) (f : String × α → β) :
    dkeys (d.map (fun p => (p.1, f p))) = dkeys d := by
  induction d with
  | nil => rfl
  | cons p rest ih =>
    have h1 : dkeys ((p.1, f p) :: rest.map (fun p => (p.1, f p)))
        = p.1 :: dkeys (rest.map (fun p => (p.1, f p))) := rfl
    rw [List.map_cons, h1, ih]
    rfl

theorem foldl_dinsert_append {α β : Type} (g : α → β) :
    ∀ (l : Dict α) (acc : Dict β), (dkeys l).Nodup →
    (∀ k, k ∈ dkeys l → k ∉ dkeys acc) →
    l.foldl (fun a p => dinsert a p.1 (g p.2)) acc = acc ++ l.map (fun p => (p.1, g p.2))
  | [], acc, _, _ => by simp
  | (k, v) :: rest, acc, hnd, hdisj => by
    rw [dkeys, List.map_cons, List.nodup_cons] at hnd
    have hk : k ∉ dkeys acc := hdisj k (by simp [dkeys])
    have hdisj' : ∀ k', k' ∈ dkeys rest → k' ∉ dkeys (acc ++ [(k, g v)]) := by
      intro k' hk'
      rw [dkeys_append]
      simp only [List.mem_append]
      push_neg
      refine ⟨hdisj k' (by rw [dkeys, List.map_cons]; exact List.mem_cons_of_mem _ hk'), ?_⟩
      have hne : k' ≠ k := fun hkk => hnd.1 (hkk ▸ hk')
      simp [dkeys, hne]
    have ih := foldl_dinsert_append g rest (acc ++ [(k, g v)]) hnd.2 hdisj'
    show List.foldl (fun a p => dinsert a p.1 (g p.2)) (dinsert acc k (g v)) rest
        = acc ++ (k, g v) :: rest.map (fun p => (p.1, g p.2))
    rw [dinsert_of_not_mem _ hk, ih, List.append_assoc]
    rfl

/-! ## Capacity enforcement and `create_checkpoint` -/

theorem enforceGo_spec (maxc : Nat) :
    ∀ (order : List String) (cps : Dict Checkpoint),
    dkeys cps = order → order.Nodup →
    enforceGo maxc order cps =
      (order.drop (order.length - maxc), cps.drop (order.length - maxc))
  | [], cps, _, _ => by simp [enforceGo]
  | oldest :: rest, cps, hA, hN => by
    match cps with
    | [] => exact absurd hA (by simp [dkeys])
    | (k, cp) :: cps' =>
      rw [dkeys, List.map_cons] at hA
      have hk : k = oldest := (List.cons.injEq _ _ _ _).mp hA |>.1
      have hA' : dkeys cps' = rest := (List.cons.injEq _ _ _ _).mp hA |>.2
      rw [List.nodup_cons] at hN
      subst hk
      rw [enforceGo]
      by_cases hlen : (k :: rest).length > maxc
      · rw [if_pos hlen]
        rw [derase_cons_self cps' k cp (hA' ▸ hN.1)]
        rw [enforceGo_spec maxc rest cps' hA' hN.2]
        have harith : (k :: rest).length - maxc = (rest.length - maxc) + 1 := by
          simp only [List.length_cons] at hlen ⊢
          omega
        rw [harith, List.drop_succ_cons, List.drop_succ_cons]
      · rw [if_neg hlen]
        have harith : (k :: rest).length - maxc = 0 := by
          simp only [List.length_cons] at hlen ⊢
          omega
        rw [harith, List.drop_zero, List.drop_zero]

theorem create_checkpoint_fst (m : CheckpointManager) (ts name desc : String)
    (files metadata : Option (Dict String)) :
    (m.create_checkpoint ts name desc files metadata).1 =
      Checkpoint.create ts name desc (some (files.getD m.current_state)) metadata := by
  cases files <;> rfl

theorem create_checkpoint_snd_spec (m : CheckpointManager) (ts name desc : String)
    (files metadata : Option (Dict String))
    (hA : dkeys m.checkpoints = m.checkpoint_order)
    (hN : m.checkpoint_order.Nodup)
    (hfresh : checkpointIdOf name ts ∉ m.checkpoint_order) :
    (m.create_checkpoint ts name desc files metadata).2 =
      { max_checkpoints := m.max_checkpoints
        checkpoints := (m.checkpoints ++
          [(checkpointIdOf name ts,
            Checkpoint.create ts name desc (some (files.getD m.current_state)) metadata)]).drop
          ((m.checkpoint_order.length + 1) - m.max_checkpoints)
        checkpoint_order := (m.checkpoint_order ++ [checkpointIdOf name ts]).drop
          ((m.checkpoint_order.length + 1) - m.max_checkpoints)
        current_state := m.current_state } := by
  have hkeys : checkpointIdOf name ts ∉ dkeys m.checkpoints := hA ▸ hfresh
  have hstep : (m.create_checkpoint ts name desc files metadata).2 =
      CheckpointManager.enforce_max_checkpoints
        { m with
          checkpoints := dinsert m.checkpoints (checkpointIdOf name ts)
            (Checkpoint.create ts name desc (some (files.getD m.current_state)) metadata),
          checkpoint_order := m.checkpoint_order ++ [checkpointIdOf name ts] } := by
    cases files <;>
      simp only [CheckpointManager.create_checkpoint, Checkpoint.create, Option.getD]
  rw [hstep, dinsert_of_not_mem _ hkeys]
  have hA2 : dkeys (m.checkpoints ++
      [(checkpointIdOf name ts,
        Checkpoint.create ts name desc (some (files.getD m.current_state)) metadata)])
      = m.checkpoint_order ++ [checkpointIdOf name ts] := by
    rw [dkeys_append, hA]
    simp only [dkeys, List.map_cons, List.map_nil]
  have hN2 : (m.checkpoint_order ++ [checkpointIdOf name ts]).Nodup := by
    refine List.Nodup.append hN (List.nodup_singleton _) ?_
    intro a ha hb
    rw [List.mem_singleton] at hb
    exact hfresh (hb ▸ ha)
  simp only [CheckpointManager.enforce_max_checkpoints]
  rw [enforceGo_spec m.max_checkpoints _ _ hA2 hN2]
  simp only [List.length_append, List.length_singleton]

theorem runCreates_spec :
    ∀ (inputs : List CreateInput) (m : CheckpointManager),
    dkeys m.checkpoints = m.checkpoint_order →
    (m.checkpoint_order ++ inputs.map CreateInput.genId).Nodup →
    m.checkpoint_order.length ≤ m.max_checkpoints →
    (runCreates m inputs).max_checkpoints = m.max_checkpoints ∧
    (runCreates m inputs).checkpoint_order =
      (m.checkpoint_order ++ inputs.map CreateInput.genId).drop
        ((m.checkpoint_order.length + inputs.length) - m.max_checkpoints) ∧
    dkeys (runCreates m inputs).checkpoints = (runCreates m inputs).checkpoint_order
  | [], m, hA, _, hlen => by
    refine ⟨rfl, ?_, hA⟩
    simp only [List.map_nil, List.append_nil, List.length_nil, Nat.add_zero,
      Nat.sub_eq_zero_of_le hlen, List.drop_zero]
    rfl
  | ci :: rest, m, hA, hND, hlen => by
    have hfresh : ci.genId ∉ m.checkpoint_order := by
      intro hmem
      exact (List.disjoint_of_nodup_append hND) hmem (by simp)
    have hN : m.checkpoint_order.Nodup := hND.of_append_left
    have hm1 := create_checkpoint_snd_spec m ci.timestamp ci.name ci.description
      ci.files ci.metadata hA hN hfresh
    have hrun : runCreates m (ci :: rest) =
        runCreates ((m.create_checkpoint ci.timestamp ci.name ci.description
          ci.files ci.metadata).2) rest := by
      simp only [runCreates, List.foldl_cons, applyCreate]
    rw [hrun, hm1]
    have hA1 : dkeys ((m.checkpoints ++ [(checkpointIdOf ci.name ci.timestamp,
          Checkpoint.create ci.timestamp ci.name ci.description
            (some (ci.files.getD m.current_state)) ci.metadata)]).drop
          ((m.checkpoint_order.length + 1) - m.max_checkpoints))
        = (m.checkpoint_order ++ [checkpointIdOf ci.name ci.timestamp]).drop
          ((m.checkpoint_order.length + 1) - m.max_checkpoints) := by
      rw [dkeys_drop, dkeys_append, hA]
      simp only [dkeys, List.map_cons, List.map_nil]
    have hassoc : (m.checkpoint_order ++ [checkpointIdOf ci.name ci.timestamp]) ++
        rest.map CreateInput.genId
        = m.checkpoint_order ++ (ci :: rest).map CreateInput.genId := by
      rw [List.map_cons, List.append_assoc]
      simp only [List.singleton_append]
      rfl
    have hND1 : ((m.checkpoint_order ++ [checkpointIdOf ci.name ci.timestamp]).drop
        ((m.checkpoint_order.length + 1) - m.max_checkpoints) ++
        rest.map CreateInput.genId).Nodup := by
      refine List.Nodup.sublist ?_ (hassoc ▸ hND)
      exact (List.drop_sublist _ _).append_right _
    have hlen1 : ((m.checkpoint_order ++ [checkpointIdOf ci.name ci.timestamp]).drop
        ((m.checkpoint_order.length + 1) - m.max_checkpoints)).length
        ≤ m.max_checkpoints := by
      rw [List.length_drop, List.length_append, List.length_singleton]
      omega
    have ih := runCreates_spec rest
      { max_checkpoints := m.max_checkpoints
        checkpoints := (m.checkpoints ++ [(checkpointIdOf ci.name ci.timestamp,
          Checkpoint.create ci.timestamp ci.name ci.description
            (some (ci.files.getD m.current_state)) ci.metadata)]).drop
          ((m.checkpoint_order.length + 1) - m.max_checkpoints)
        checkpoint_order := (m.checkpoint_order ++ [checkpointIdOf ci.name ci.timestamp]).drop
          ((m.checkpoint_order.length + 1) - m.max_checkpoints)
        current_state := m.current_state } hA1 hND1 hlen1
    dsimp only at ih
    refine ⟨ih.1, ?_, ih.2.2⟩
    rw [ih.2.1]
    have hk : (m.checkpoint_order.length + 1) - m.max_checkpoints
        ≤ (m.checkpoint_order ++ [checkpointIdOf ci.name ci.timestamp]).length := by
      rw [List.length_append, List.length_singleton]
      omega
    rw [← List.drop_append_of_le_length hk, List.drop_drop, hassoc]
    congr 1
    simp only [List.length_drop, List.length_append, List.length_singleton,
      List.length_cons, List.length_nil] at hlen1 hk ⊢
    omega

/-- C1: a `CheckpointManager` of capacity `maxc` retains at most `maxc`
checkpoints after each `create_checkpoint` call, and after any sequence of
creates (with non-colliding derived ids) both the order list and the id map
hold exactly the most-recently-created `maxc` ids: every older id has been
evicted from both structures, oldest first. -/
theorem fifo_capacity_eviction (maxc : Nat) (inputs : List CreateInput)
    (hnodup : (inputs.map CreateInput.genId).Nodup) :
    (∀ j : Nat,
      (runCreates (CheckpointManager.init maxc) (inputs.take j)).checkpoint_order.length ≤ maxc ∧
      (runCreates (CheckpointManager.init maxc) (inputs.take j)).checkpoints.length ≤ maxc) ∧
    (runCreates (CheckpointManager.init maxc) inputs).checkpoint_order
      = (inputs.map CreateInput.genId).drop (inputs.length - maxc) ∧
    dkeys (runCreates (CheckpointManager.init maxc) inputs).checkpoints
      = (inputs.map CreateInput.genId).drop (inputs.length - maxc) := by
  have main : ∀ (l : List CreateInput), (l.map CreateInput.genId).Nodup →
      (runCreates (CheckpointManager.init maxc) l).checkpoint_order
        = (l.map CreateInput.genId).drop (l.length - maxc) ∧
      dkeys (runCreates (CheckpointManager.init maxc) l).checkpoints
        = (l.map CreateInput.genId).drop (l.length - maxc) := by
    intro l hnd
    have h := runCreates_spec l (CheckpointManager.init maxc) rfl
      (by simpa using hnd) (by simp [CheckpointManager.init])
    simp only [CheckpointManager.init, List.nil_append, List.length_nil,
      Nat.zero_add] at h
    exact ⟨h.2.1, h.2.2.trans h.2.1⟩
  refine ⟨?_, (main inputs hnodup).1, (main inputs hnodup).2⟩
  intro j
  have hndj : ((inputs.take j).map CreateInput.genId).Nodup := by
    rw [List.map_take]
    exact hnodup.sublist (List.take_sublist j _)
  have h := main (inputs.take j) hndj
  constructor
  · rw [h.1, List.length_drop, List.length_map, List.length_take]
    omega
  · have hlen : (dkeys (runCreates (CheckpointManager.init maxc)
        (inputs.take j)).checkpoints).length
        = (runCreates (CheckpointManager.init maxc) (inputs.take j)).checkpoints.length :=
      List.length_map _ _
    rw [← hlen, h.2, List.length_drop, List.length_map, List.length_take]
    omega

/-- A successful `restore_checkpoint` changes only `current_state`. -/
theorem restore_checkpoint_preserves (m : CheckpointManager) (cid : String)
    (paths : Option (List String)) (r : Dict String) (m' : CheckpointManager)
    (h : m.restore_checkpoint cid paths = .ok (r, m')) :
    m'.checkpoints = m.checkpoints ∧ m'.checkpoint_order = m.checkpoint_order ∧
    m'.max_checkpoints = m.max_checkpoints := by
  cases hge : dget? m.checkpoints cid with
  | none =>
    simp only [CheckpointManager.restore_checkpoint, hge] at h
    exact absurd h (by simp)
  | some cp =>
    simp only [CheckpointManager.restore_checkpoint, hge, Except.ok.injEq,
      Prod.mk.injEq] at h
    rw [← h.2]
    exact ⟨rfl, rfl, rfl⟩

/-- The core invariant of reachable stores: the id map's keys are exactly
the order list (same list, hence same set), and the order list has no
duplicates. -/
theorem reachable_invariant (m : CheckpointManager) (h : Reachable m) :
    dkeys m.checkpoints = m.checkpoint_order ∧ m.checkpoint_order.Nodup := by
  induction h with
  | init maxc => exact ⟨rfl, List.nodup_nil⟩
  | create m ts name desc files metadata hr hfresh ih =>
    obtain ⟨hA, hN⟩ := ih
    rw [create_checkpoint_snd_spec m ts name desc files metadata hA hN hfresh]
    have hN2 : (m.checkpoint_order ++ [checkpointIdOf name ts]).Nodup := by
      refine List.Nodup.append hN (List.nodup_singleton _) ?_
      intro a ha hb
      rw [List.mem_singleton] at hb
      exact hfresh (hb ▸ ha)
    constructor
    · show dkeys ((m.checkpoints ++ [(checkpointIdOf name ts, _)]).drop _) = _
      rw [dkeys_drop, dkeys_append, hA]
      simp only [dkeys, List.map_cons, List.map_nil]
    · exact hN2.sublist (List.drop_sublist _ _)
  | delete m cid hr ih =>
    obtain ⟨hA, hN⟩ := ih
    by_cases hc : dcontains m.checkpoints cid = true
    · have hdel : (m.delete_checkpoint cid).2 =
          { m with checkpoints := derase m.checkpoints cid,
                   checkpoint_order := listRemoveFirst m.checkpoint_order cid } := by
        simp only [CheckpointManager.delete_checkpoint, if_pos hc]
      rw [hdel]
      refine ⟨?_, ?_⟩
      · show dkeys (derase m.checkpoints cid) = listRemoveFirst m.checkpoint_order cid
        rw [dkeys_derase, hA, listRemoveFirst_eq_filter _ _ hN]
      · show (listRemoveFirst m.checkpoint_order cid).Nodup
        rw [listRemoveFirst_eq_filter _ _ hN]
        exact hN.filter _
    · have hdel : (m.delete_checkpoint cid).2 = m := by
        simp only [CheckpointManager.delete_checkpoint, if_neg hc]
      rw [hdel]
      exact ⟨hA, hN⟩
  | restore m cid paths r m' hr heq ih =>
    obtain ⟨hcps, hord, _⟩ := restore_checkpoint_preserves m cid paths r m' heq
    rw [hcps, hord]
    exact ih
  | update m p c hr ih => exact ih
  | removeState m p hr ih => exact ih

/-- C2: in every reachable store state, the order list and the id map hold
exactly the same set of checkpoint ids — no id is in one structure without
the other, after any public mutating operation. -/
theorem order_map_consistency (m : CheckpointManager) (h : Reachable m) (id : String) :
    id ∈ m.checkpoint_order ↔ (dget? m.checkpoints id).isSome := by
  rw [dget?_isSome_iff, (reachable_invariant m h).1]

/-! ## Restore characterization -/

theorem restoreStep_get1 (cp : Checkpoint) (acc : Dict String × Dict String)
    (q p : String) :
    dget? (restoreStep cp acc q).1 p =
      match cp.get_file q with
      | some snap => if p = q then some snap.content else dget? acc.1 p
      | none => dget? acc.1 p := by
  cases hsnap : cp.get_file q with
  | none => simp only [restoreStep, hsnap]
  | some snap =>
    simp only [restoreStep, hsnap]
    by_cases hpq : p = q
    · subst hpq
      rw [dget?_dinsert_self, if_pos rfl]
    · rw [dget?_dinsert_ne _ _ hpq, if_neg hpq]

theorem restoreStep_get2 (cp : Checkpoint) (acc : Dict String × Dict String)
    (q p : String) :
    dget? (restoreStep cp acc q).2 p =
      match cp.get_file q with
      | some snap => if p = q then some snap.content else dget? acc.2 p
      | none => dget? acc.2 p := by
  cases hsnap : cp.get_file q with
  | none => simp only [restoreStep, hsnap]
  | some snap =>
    simp only [restoreStep, hsnap]
    by_cases hpq : p = q
    · subst hpq
      rw [dget?_dinsert_self, if_pos rfl]
    · rw [dget?_dinsert_ne _ _ hpq, if_neg hpq]

theorem restore_foldl_fst (cp : Checkpoint) :
    ∀ (req : List String) (acc : Dict String × Dict String) (p : String),
    dget? (req.foldl (restoreStep cp) acc).1 p =
      if p ∈ req ∧ (cp.get_file p).isSome
      then (cp.get_file p).map FileSnapshot.content else dget? acc.1 p
  | [], acc, p => by
    rw [List.foldl_nil, if_neg (fun hh => List.not_mem_nil p hh.1)]
  | q :: req, acc, p => by
    rw [List.foldl_cons, restore_foldl_fst cp req (restoreStep cp acc q) p,
      restoreStep_get1]
    by_cases h1 : p ∈ req ∧ (cp.get_file p).isSome
    · rw [if_pos h1, if_pos ⟨List.mem_cons_of_mem q h1.1, h1.2⟩]
    · rw [if_neg h1]
      by_cases h2 : p = q
      · subst h2
        cases hs : cp.get_file p with
        | some snap =>
          show (if p = p then some snap.content else dget? acc.1 p)
              = if p ∈ p :: req ∧ (some snap).isSome = true
                then Option.map FileSnapshot.content (some snap) else dget? acc.1 p
          rw [if_pos rfl, if_pos ⟨List.mem_cons_self p req, rfl⟩]
          rfl
        | none =>
          show dget? acc.1 p
              = if p ∈ p :: req ∧ (Option.isSome (none : Option FileSnapshot)) = true
                then Option.map FileSnapshot.content (none : Option FileSnapshot)
                else dget? acc.1 p
          rw [if_neg (fun hh => by simp at hh)]
      · cases hs : cp.get_file q with
        | some snap =>
          show (if p = q then some snap.content else dget? acc.1 p) = _
          rw [if_neg h2]
          rw [if_neg (fun hh => by
            rcases List.mem_cons.mp hh.1 with hc | hc
            · exact h2 hc
            · exact h1 ⟨hc, hh.2⟩)]
        | none =>
          show dget? acc.1 p = _
          rw [if_neg (fun hh => by
            rcases List.mem_cons.mp hh.1 with hc | hc
            · exact h2 hc
            · exact h1 ⟨hc, hh.2⟩)]

theorem restore_foldl_snd (cp : Checkpoint) :
    ∀ (req : List String) (acc : Dict String × Dict String) (p : String),
    dget? (req.foldl (restoreStep cp) acc).2 p =
      if p ∈ req ∧ (cp.get_file p).isSome
      then (cp.get_file p).map FileSnapshot.content else dget? acc.2 p
  | [], acc, p => by
    rw [List.foldl_nil, if_neg (fun hh => List.not_mem_nil p hh.1)]
  | q :: req, acc, p => by
    rw [List.foldl_cons, restore_foldl_snd cp req (restoreStep cp acc q) p,
      restoreStep_get2]
    by_cases h1 : p ∈ req ∧ (cp.get_file p).isSome
    · rw [if_pos h1, if_pos ⟨List.mem_cons_of_mem q h1.1, h1.2⟩]
    · rw [if_neg h1]
      by_cases h2 : p = q
      · subst h2
        cases hs : cp.get_file p with
        | some snap =>
          show (if p = p then some snap.content else dget? acc.2 p)
              = if p ∈ p :: req ∧ (some snap).isSome = true
                then Option.map FileSnapshot.content (some snap) else dget? acc.2 p
          rw [if_pos rfl, if_pos ⟨List.mem_cons_self p req, rfl⟩]
          rfl
        | none =>
          show dget? acc.2 p
              = if p ∈ p :: req ∧ (Option.isSome (none : Option FileSnapshot)) = true
                then Option.map FileSnapshot.content (none : Option FileSnapshot)
                else dget? acc.2 p
          rw [if_neg (fun hh => by simp at hh)]
      · cases hs : cp.get_file q with
        | some snap =>
          show (if p = q then some snap.content else dget? acc.2 p) = _
          rw [if_neg h2]
          rw [if_neg (fun hh => by
            rcases List.mem_cons.mp hh.1 with hc | hc
            · exact h2 hc
            · exact h1 ⟨hc, hh.2⟩)]
        | none =>
          show dget? acc.2 p = _
          rw [if_neg (fun hh => by
            rcases List.mem_cons.mp hh.1 with hc | hc
            · exact h2 hc
            · exact h1 ⟨hc, hh.2⟩)]

/-- C3: restoring an unknown id fails with the checkpoint-not-found error;
restoring a known id succeeds, and for each requested path (all paths of
the checkpoint when `paths` is omitted) that has a snapshot, the snapshot's
content appears in the returned map and in `current_state`; requested paths
without a snapshot are silently skipped (absent from the result, current
state untouched at them). -/
theorem restore_checkpoint_spec (m : CheckpointManager) (cid : String)
    (paths : Option (List String)) :
    (dget? m.checkpoints cid = none →
      m.restore_checkpoint cid paths = .error ("Checkpoint not found: " ++ cid)) ∧
    ∀ cp, dget? m.checkpoints cid = some cp →
      ∃ r m', m.restore_checkpoint cid paths = .ok (r, m') ∧
        m'.checkpoints = m.checkpoints ∧
        m'.checkpoint_order = m.checkpoint_order ∧
        (∀ p, dget? r p =
          if p ∈ filesToRestore cp paths ∧ (cp.get_file p).isSome
          then (cp.get_file p).map FileSnapshot.content else none) ∧
        (∀ p, dget? m'.current_state p =
          if p ∈ filesToRestore cp paths ∧ (cp.get_file p).isSome
          then (cp.get_file p).map FileSnapshot.content
          else dget? m.current_state p) := by
  constructor
  · intro h
    simp only [CheckpointManager.restore_checkpoint, h]
  · intro cp hcp
    refine ⟨(List.foldl (restoreStep cp) ([], m.current_state) (filesToRestore cp paths)).1,
      { m with current_state :=
          (List.foldl (restoreStep cp) ([], m.current_state) (filesToRestore cp paths)).2 },
      by simp only [CheckpointManager.restore_checkpoint, hcp], rfl, rfl, ?_, ?_⟩
    · intro p
      rw [restore_foldl_fst cp (filesToRestore cp paths) ([], m.current_state) p]
      rfl
    · intro p
      show dget? ((filesToRestore cp paths).foldl (restoreStep cp)
        ([], m.current_state)).2 p = _
      rw [restore_foldl_snd cp (filesToRestore cp paths) ([], m.current_state) p]

/-! ## Diff characterization -/

theorem diffStepOld_get (current : Dict String) (acc : Dict DiffEntry)
    (e : String × FileSnapshot) (p : String) :
    dget? (diffStepOld current acc e) p =
      if p = e.1 then
        (match dget? current e.1 with
         | some c =>
            if c ≠ e.2.content then some ⟨"modified", some e.2.content, some c⟩
            else dget? acc p
         | none => some ⟨"deleted", some e.2.content, none⟩)
      else dget? acc p := by
  cases hc : dget? current e.1 with
  | some c =>
    simp only [diffStepOld, hc]
    by_cases hne : c ≠ e.2.content
    · rw [if_pos hne]
      by_cases hp : p = e.1
      · subst hp
        rw [dget?_dinsert_self, if_pos rfl, if_pos hne]
      · rw [dget?_dinsert_ne _ _ hp, if_neg hp]
    · rw [if_neg hne]
      by_cases hp : p = e.1
      · subst hp
        rw [if_pos rfl, if_neg hne]
      · rw [if_neg hp]
  | none =>
    simp only [diffStepOld, hc]
    by_cases hp : p = e.1
    · subst hp
      rw [dget?_dinsert_self, if_pos rfl]
    · rw [dget?_dinsert_ne _ _ hp, if_neg hp]

theorem diff_foldl_old (current : Dict String) :
    ∀ (files : Dict FileSnapshot) (acc : Dict DiffEntry) (p : String),
    (dkeys files).Nodup →
    dget? (files.foldl (diffStepOld current) acc) p =
      match dget? files p with
      | some snap =>
        (match dget? current p with
         | some c =>
            if c ≠ snap.content then some ⟨"modified", some snap.content, some c⟩
            else dget? acc p
         | none => some ⟨"deleted", some snap.content, none⟩)
      | none => dget? acc p
  | [], acc, p, _ => by
    rw [List.foldl_nil]
    rfl
  | (q, snap) :: files, acc, p, hnd => by
    rw [dkeys, List.map_cons, List.nodup_cons] at hnd
    rw [List.foldl_cons,
      diff_foldl_old current files (diffStepOld current acc (q, snap)) p hnd.2,
      diffStepOld_get]
    by_cases hp : p = q
    · subst hp
      have hnone : dget? files p = none :=
        (dget?_eq_none_iff files p).mpr (by simpa [dkeys] using hnd.1)
      have hhead : dget? ((p, snap) :: files) p = some snap := by
        rw [dget?, if_pos rfl]
      simp only [hnone, hhead]
      simp only [if_true]
    · have hcons : dget? ((q, snap) :: files) p = dget? files p := by
        rw [dget?, if_neg (fun hh : q = p => hp hh.symm)]
      rw [hcons, if_neg (show ¬(p = (q, snap).1) from hp)]

theorem diffStepNew_get (cpFiles : Dict FileSnapshot) (acc : Dict DiffEntry)
    (e : String × String) (p : String) :
    dget? (diffStepNew cpFiles acc e) p =
      if p = e.1 ∧ ¬ (dcontains cpFiles e.1 = true) then some ⟨"added", none, some e.2⟩
      else dget? acc p := by
  by_cases hc : dcontains cpFiles e.1 = true
  · simp only [diffStepNew, if_pos hc]
    rw [if_neg (fun hh => hh.2 hc)]
  · simp only [diffStepNew, if_neg hc]
    by_cases hp : p = e.1
    · subst hp
      rw [dget?_dinsert_self, if_pos ⟨rfl, hc⟩]
    · rw [dget?_dinsert_ne _ _ hp, if_neg (fun hh => hp hh.1)]

theorem diff_foldl_new (cpFiles : Dict FileSnapshot) :
    ∀ (cur : Dict String) (acc : Dict DiffEntry) (p : String),
    (dkeys cur).Nodup →
    dget? (cur.foldl (diffStepNew cpFiles) acc) p =
      match dget? cur p with
      | some c =>
          if dcontains cpFiles p = true then dget? acc p
          else some ⟨"added", none, some c⟩
      | none => dget? acc p
  | [], acc, p, _ => by
    rw [List.foldl_nil]
    rfl
  | (q, c) :: cur, acc, p, hnd => by
    rw [dkeys, List.map_cons, List.nodup_cons] at hnd
    rw [List.foldl_cons,
      diff_foldl_new cpFiles cur (diffStepNew cpFiles acc (q, c)) p hnd.2,
      diffStepNew_get]
    by_cases hp : p = q
    · subst hp
      have hnone : dget? cur p = none :=
        (dget?_eq_none_iff cur p).mpr (by simpa [dkeys] using hnd.1)
      have hhead : dget? ((p, c) :: cur) p = some c := by
        rw [dget?, if_pos rfl]
      simp only [hnone, hhead]
      by_cases hcc : dcontains cpFiles p = true
      · rw [if_neg (fun hh => hh.2 hcc), if_pos hcc]
      · rw [if_pos ⟨trivial, hcc⟩, if_neg hcc]
    · have hcons : dget? ((q, c) :: cur) p = dget? cur p := by
        rw [dget?, if_neg (fun hh : q = p => hp hh.symm)]
      rw [hcons,
        if_neg (show ¬(p = (q, c).1 ∧ ¬(dcontains cpFiles (q, c).1 = true)) from
          fun hh => hp hh.1)]

/-- C4: diff on an unknown id fails with the checkpoint-not-found error; on
a known id it returns exactly: `modified` for checkpoint paths whose live
content differs, no entry for checkpoint paths with equal live content,
`deleted` for checkpoint paths absent from live, and `added` for live paths
absent from the checkpoint — all by content equality. -/
theorem diff_checkpoint_spec (m : CheckpointManager) (cid : String)
    (current_files : Option (Dict String)) :
    (dget? m.checkpoints cid = none →
      m.diff_checkpoint cid current_files = .error ("Checkpoint not found: " ++ cid)) ∧
    ∀ cp, dget? m.checkpoints cid = some cp →
      (dkeys cp.files).Nodup →
      (dkeys (current_files.getD m.current_state)).Nodup →
      ∃ d, m.diff_checkpoint cid current_files = .ok d ∧
        ∀ p, dget? d p =
          match dget? cp.files p, dget? (current_files.getD m.current_state) p with
          | some snap, some c =>
              if c ≠ snap.content then some ⟨"modified", some snap.content, some c⟩
              else none
          | some snap, none => some ⟨"deleted", some snap.content, none⟩
          | none, some c => some ⟨"added", none, some c⟩
          | none, none => none := by
  constructor
  · intro h
    simp only [CheckpointManager.diff_checkpoint, h]
  · intro cp hcp hndF hndC
    refine ⟨(current_files.getD m.current_state).foldl (diffStepNew cp.files)
      (cp.files.foldl (diffStepOld (current_files.getD m.current_state)) []),
      by simp only [CheckpointManager.diff_checkpoint, hcp], ?_⟩
    intro p
    rw [diff_foldl_new cp.files (current_files.getD m.current_state) _ p hndC,
      diff_foldl_old (current_files.getD m.current_state) cp.files [] p hndF]
    cases hf : dget? cp.files p with
    | some snap =>
      cases hcur : dget? (current_files.getD m.current_state) p with
      | some c =>
        have hcc : dcontains cp.files p = true := by
          rw [dcontains, hf]
          rfl
        by_cases hne : c ≠ snap.content
        · simp [hf, hcur, hcc, hne]
        · simp [hf, hcur, hcc, hne, dget?]
      | none => simp [hf, hcur]
    | none =>
      cases hcur : dget? (current_files.getD m.current_state) p with
      | some c =>
        have hcc : dcontains cp.files p = false := by
          rw [dcontains, hf]
          rfl
        simp [hf, hcur, hcc]
      | none => simp [hf, hcur, dget?]

/-! ## Serialization round trip -/

theorem snapshot_roundtrip (s : FileSnapshot) (h : SnapshotWF s) :
    FileSnapshot.from_dict s.to_dict = s := by
  obtain ⟨path, content, sha, size⟩ := s
  obtain ⟨h1, h2⟩ := h
  simp only [FileSnapshot.to_dict] at h1 h2 ⊢
  simp only [FileSnapshot.from_dict, FileSnapshot.make]
  rw [if_neg h1]
  by_cases hz : size = 0
  · have hc := h2 hz
    subst hz
    subst hc
    rw [if_pos rfl]
    rfl
  · rw [if_neg hz]

theorem checkpoint_roundtrip (cp : Checkpoint) (h : CheckpointWF cp) :
    Checkpoint.from_dict cp.to_dict = cp := by
  obtain ⟨cid, cname, cdesc, cca, files, cmeta⟩ := cp
  simp only [Checkpoint.to_dict, Checkpoint.from_dict, List.map_map]
  congr 1
  have hmap : ∀ e ∈ files,
      ((fun p => (p.1, FileSnapshot.from_dict p.2)) ∘
        (fun p => (p.1, FileSnapshot.to_dict p.2))) e = id e := by
    intro e he
    show (e.1, FileSnapshot.from_dict e.2.to_dict) = e
    rw [snapshot_roundtrip e.2 (h e he)]
  rw [List.map_congr_left hmap, List.map_id]

/-- C5: deserializing the serialization of any store (with untampered
snapshots, as `__post_init__` guarantees, and distinct checkpoint ids, as
every Python dict has) reconstructs the order list, every checkpoint with
all of its fields and files, and the current state exactly; only the
capacity is replaced by the deserializer's parameter. -/
theorem serialize_roundtrip (m : CheckpointManager) (maxc : Nat)
    (hnd : (dkeys m.checkpoints).Nodup) (hwf : ManagerWF m) :
    CheckpointManager.from_json m.to_json maxc = { m with max_checkpoints := maxc } := by
  simp only [CheckpointManager.from_json, CheckpointManager.to_json]
  congr 1
  rw [foldl_dinsert_append Checkpoint.from_dict
    (m.checkpoints.map (fun p => (p.1, Checkpoint.to_dict p.2))) []
    (by rw [show (m.checkpoints.map (fun p => (p.1, Checkpoint.to_dict p.2)))
        = m.checkpoints.map (fun p => (p.1, (fun q : String × Checkpoint =>
          Checkpoint.to_dict q.2) p)) from rfl, dkeys_map_pair]
        exact hnd)
    (by intro k _ hk
        simp [dkeys] at hk)]
  rw [List.nil_append, List.map_map]
  have hmap : ∀ e ∈ m.checkpoints,
      ((fun p => (p.1, Checkpoint.from_dict p.2)) ∘
        (fun p => (p.1, Checkpoint.to_dict p.2))) e = id e := by
    intro e he
    show (e.1, Checkpoint.from_dict e.2.to_dict) = e
    rw [checkpoint_roundtrip e.2 (hwf e he)]
  rw [List.map_congr_left hmap, List.map_id]

/-! ## Failing operation bodies (Session bracket) -/

theorem enforceGo_get (maxc : Nat) (hmax : 1 ≤ maxc) :
    ∀ (order : List String) (cps : Dict Checkpoint) (id : String) (cp : Checkpoint),
    id ∉ order → dget? cps id = some cp →
    dget? (enforceGo maxc (order ++ [id]) cps).2 id = some cp
  | [], cps, id, cp, _, hget => by
    rw [List.nil_append, enforceGo]
    rw [if_neg (by simp only [List.length_singleton]; omega)]
    exact hget
  | o :: order, cps, id, cp, hmem, hget => by
    rw [List.cons_append, enforceGo]
    by_cases hlen : (o :: (order ++ [id])).length > maxc
    · rw [if_pos hlen]
      refine enforceGo_get maxc hmax order (derase cps o) id cp
        (fun hh => hmem (List.mem_cons_of_mem _ hh)) ?_
      rw [dget?_derase_ne _ (fun hh : id = o => hmem (hh ▸ List.mem_cons_self o order))]
      exact hget
    · rw [if_neg hlen]
      exact hget

theorem create_checkpoint_unfold (m : CheckpointManager) (ts name desc : String)
    (files metadata : Option (Dict String)) :
    (m.create_checkpoint ts name desc files metadata).2 =
      CheckpointManager.enforce_max_checkpoints
        { m with
          checkpoints := dinsert m.checkpoints (checkpointIdOf name ts)
            (Checkpoint.create ts name desc (some (files.getD m.current_state)) metadata),
          checkpoint_order := m.checkpoint_order ++ [checkpointIdOf name ts] } := by
  cases files <;>
    simp only [CheckpointManager.create_checkpoint, Checkpoint.create, Option.getD]

theorem create_checkpoint_fst_id (m : CheckpointManager) (ts name desc : String)
    (files metadata : Option (Dict String)) :
    (m.create_checkpoint ts name desc files metadata).1.id = checkpointIdOf name ts := by
  rw [create_checkpoint_fst]
  simp only [Checkpoint.create]

/-- With a fresh id and capacity at least 1, the newly created checkpoint
itself survives capacity enforcement and is retrievable. -/
theorem create_checkpoint_get (m : CheckpointManager) (ts name desc : String)
    (files metadata : Option (Dict String))
    (hmax : 1 ≤ m.max_checkpoints)
    (hfreshO : checkpointIdOf name ts ∉ m.checkpoint_order)
    (hfreshK : checkpointIdOf name ts ∉ dkeys m.checkpoints) :
    dget? (m.create_checkpoint ts name desc files metadata).2.checkpoints
      (checkpointIdOf name ts)
      = some (Checkpoint.create ts name desc (some (files.getD m.current_state)) metadata) := by
  rw [create_checkpoint_unfold]
  simp only [CheckpointManager.enforce_max_checkpoints]
  rw [dinsert_of_not_mem _ hfreshK]
  exact enforceGo_get m.max_checkpoints hmax m.checkpoint_order
    (m.checkpoints ++ [(checkpointIdOf name ts,
      Checkpoint.create ts name desc (some (files.getD m.current_state)) metadata)])
    (checkpointIdOf name ts) _ hfreshO
    (by rw [dget?_append_right _ hfreshK, dget?, if_pos rfl])

/-- The observable call-record fields a theorem about the bracket needs. -/
def callFields (c : LLMCall) : String × String × String × Option Nat :=
  (c.id, c.checkpoint_id, c.status, c.duration_ms)

theorem track_file_preserves (s : Session) (p c : String) :
    (s.track_file p c).checkpoint_manager.checkpoints
        = s.checkpoint_manager.checkpoints ∧
    (s.track_file p c).checkpoint_manager.checkpoint_order
        = s.checkpoint_manager.checkpoint_order ∧
    (s.track_file p c).checkpoint_manager.max_checkpoints
        = s.checkpoint_manager.max_checkpoints ∧
    (s.track_file p c).llm_calls.length = s.llm_calls.length ∧
    (s.track_file p c).current_call = s.current_call ∧
    ∀ i : Nat, ((s.track_file p c).llm_calls[i]?).map callFields
        = (s.llm_calls[i]?).map callFields := by
  cases hcc : s.current_call with
  | none =>
    have hs : s.track_file p c =
        { s with tracked_files := dinsert s.tracked_files p c,
                 checkpoint_manager := s.checkpoint_manager.update_current_state p c } := by
      simp only [Session.track_file, hcc]
    rw [hs]
    exact ⟨rfl, rfl, rfl, rfl, hcc, fun i => rfl⟩
  | some idx =>
    cases hci : s.llm_calls[idx]? with
    | none =>
      have hs : s.track_file p c =
          { s with tracked_files := dinsert s.tracked_files p c,
                   checkpoint_manager := s.checkpoint_manager.update_current_state p c } := by
        simp only [Session.track_file, hcc, hci]
      rw [hs]
      exact ⟨rfl, rfl, rfl, rfl, hcc, fun i => rfl⟩
    | some call =>
      by_cases hmem : p ∈ call.files_modified
      · have hs : s.track_file p c =
            { s with tracked_files := dinsert s.tracked_files p c,
                     checkpoint_manager := s.checkpoint_manager.update_current_state p c } := by
          simp only [Session.track_file, hcc, hci, if_pos hmem]
        rw [hs]
        exact ⟨rfl, rfl, rfl, rfl, hcc, fun i => rfl⟩
      · have hs : s.track_file p c =
            { s with tracked_files := dinsert s.tracked_files p c,
                     checkpoint_manager := s.checkpoint_manager.update_current_state p c,
                     llm_calls := s.llm_calls.set idx
                       { call with files_modified := call.files_modified ++ [p] } } := by
          simp only [Session.track_file, hcc, hci, if_neg hmem]
        rw [hs]
        refine ⟨rfl, rfl, rfl, List.length_set _ _ _, hcc, ?_⟩
        intro i
        show ((s.llm_calls.set idx
            { call with files_modified := call.files_modified ++ [p] })[i]?).map callFields
          = (s.llm_calls[i]?).map callFields
        rw [List.getElem?_set]
        by_cases hii : idx = i
        · subst hii
          rw [if_pos rfl]
          have hlt : idx < s.llm_calls.length := by
            by_contra hge
            rw [List.getElem?_eq_none (Nat.le_of_not_lt hge)] at hci
            exact Option.noConfusion hci
          rw [if_pos hlt, hci]
          rfl
        · rw [if_neg hii]

theorem applyAct_preserves (s : Session) (a : SessionAct) :
    (s.applyAct a).checkpoint_manager.checkpoints = s.checkpoint_manager.checkpoints ∧
    (s.applyAct a).checkpoint_manager.checkpoint_order
        = s.checkpoint_manager.checkpoint_order ∧
    (s.applyAct a).checkpoint_manager.max_checkpoints
        = s.checkpoint_manager.max_checkpoints ∧
    (s.applyAct a).llm_calls.length = s.llm_calls.length ∧
    (s.applyAct a).current_call = s.current_call ∧
    ∀ i : Nat, ((s.applyAct a).llm_calls[i]?).map callFields
        = (s.llm_calls[i]?).map callFields := by
  cases a with
  | track p c => exact track_file_preserves s p c
  | updateState p c =>
    exact ⟨rfl, rfl, rfl, rfl, rfl, fun i => rfl⟩
  | removeState p =>
    exact ⟨rfl, rfl, rfl, rfl, rfl, fun i => rfl⟩

theorem runActs_preserves :
    ∀ (acts : List SessionAct) (s : Session),
    (s.runActs acts).checkpoint_manager.checkpoints
        = s.checkpoint_manager.checkpoints ∧
    (s.runActs acts).checkpoint_manager.checkpoint_order
        = s.checkpoint_manager.checkpoint_order ∧
    (s.runActs acts).checkpoint_manager.max_checkpoints
        = s.checkpoint_manager.max_checkpoints ∧
    (s.runActs acts).llm_calls.length = s.llm_calls.length ∧
    (s.runActs acts).current_call = s.current_call ∧
    ∀ i : Nat, ((s.runActs acts).llm_calls[i]?).map callFields
        = (s.llm_calls[i]?).map callFields
  | [], s => ⟨rfl, rfl, rfl, rfl, rfl, fun i => rfl⟩
  | a :: acts, s => by
    have h1 := applyAct_preserves s a
    have h2 := runActs_preserves acts (s.applyAct a)
    have hfold : s.runActs (a :: acts) = (s.applyAct a).runActs acts := rfl
    rw [hfold]
    exact ⟨h2.1.trans h1.1, h2.2.1.trans h1.2.1, h2.2.2.1.trans h1.2.2.1,
      h2.2.2.2.1.trans h1.2.2.2.1, h2.2.2.2.2.1.trans h1.2.2.2.2.1,
      fun i => (h2.2.2.2.2.2 i).trans (h1.2.2.2.2.2 i)⟩

/-- C6: a bracketed operation whose body raises leaves its record with
status `failed` and a non-null duration, propagates the exception unchanged
to the caller, and the checkpoint created at bracket entry (referenced by
the record) is still retrievable and restorable, given capacity at least 1
and a non-colliding checkpoint id. -/
theorem failed_body_bookkeeping (s : Session) (ts model prompt : String)
    (descr : Option String) (body : List SessionAct) (e : String) (dur : Nat)
    (hmax : 1 ≤ s.checkpoint_manager.max_checkpoints)
    (hfreshO : checkpointIdOf (checkpointNameOf model descr) ts ∉
      s.checkpoint_manager.checkpoint_order)
    (hfreshK : checkpointIdOf (checkpointNameOf model descr) ts ∉
      dkeys s.checkpoint_manager.checkpoints) :
    (s.llm_call ts model prompt descr body (some e) dur).2 = some e ∧
    ∃ call,
      (s.llm_call ts model prompt descr body (some e) dur).1.llm_calls[s.llm_calls.length]?
        = some call ∧
      call.status = "failed" ∧
      call.duration_ms = some dur ∧
      call.checkpoint_id = checkpointIdOf (checkpointNameOf model descr) ts ∧
      (∃ cp, (s.llm_call ts model prompt descr body (some e) dur).1.checkpoint_manager.get_checkpoint
          call.checkpoint_id = some cp) ∧
      ∃ rr m',
        (s.llm_call ts model prompt descr body (some e) dur).1.checkpoint_manager.restore_checkpoint
          call.checkpoint_id none = .ok (rr, m') := by
  have hbegin : s.llm_call_begin ts model prompt descr =
      ({ s with
          checkpoint_manager := (s.checkpoint_manager.create_checkpoint ts
            (checkpointNameOf model descr)
            ("Auto-checkpoint before LLM call: " ++ prompt.take 100 ++ "...")
            (some s.tracked_files)
            (some [("call_id", formatCallId (s.call_counter + 1)), ("model", model),
                   ("type", "pre-llm-call")])).2,
          call_counter := s.call_counter + 1,
          llm_calls := s.llm_calls ++
            [{ id := formatCallId (s.call_counter + 1),
               checkpoint_id := checkpointIdOf (checkpointNameOf model descr) ts,
               model := model,
               prompt_preview := prompt.take 200 ++
                 (if prompt.length > 200 then "..." else ""),
               timestamp := ts, status := "pending", response_preview := none,
               files_modified := [], duration_ms := none }],
          current_call := some s.llm_calls.length },
       { id := formatCallId (s.call_counter + 1),
         checkpoint_id := checkpointIdOf (checkpointNameOf model descr) ts,
         model := model,
         prompt_preview := prompt.take 200 ++
           (if prompt.length > 200 then "..." else ""),
         timestamp := ts, status := "pending", response_preview := none,
         files_modified := [], duration_ms := none }) := by
    simp only [Session.llm_call_begin, create_checkpoint_fst_id]
  have hllm : s.llm_call ts model prompt descr body (some e) dur =
      (((s.llm_call_begin ts model prompt descr).1.runActs body).llm_call_finish
        ((s.llm_call_begin ts model prompt descr).1.llm_calls.length - 1) true dur,
       some e) := by
    simp only [Session.llm_call, Option.isSome_some]
  refine ⟨by rw [hllm], ?_⟩
  rw [hllm, hbegin]
  set cm₂ := (s.checkpoint_manager.create_checkpoint ts (checkpointNameOf model descr)
    ("Auto-checkpoint before LLM call: " ++ prompt.take 100 ++ "...")
    (some s.tracked_files)
    (some [("call_id", formatCallId (s.call_counter + 1)), ("model", model),
           ("type", "pre-llm-call")])).2 with hcm₂
  set rec₀ : LLMCall :=
    { id := formatCallId (s.call_counter + 1),
      checkpoint_id := checkpointIdOf (checkpointNameOf model descr) ts,
      model := model,
      prompt_preview := prompt.take 200 ++ (if prompt.length > 200 then "..." else ""),
      timestamp := ts, status := "pending", response_preview := none,
      files_modified := [], duration_ms := none } with hrec₀
  set s₁ : Session :=
    { s with checkpoint_manager := cm₂, call_counter := s.call_counter + 1,
             llm_calls := s.llm_calls ++ [rec₀],
             current_call := some s.llm_calls.length } with hs₁
  have hidx : s₁.llm_calls.length - 1 = s.llm_calls.length := by
    show (s.llm_calls ++ [rec₀]).length - 1 = s.llm_calls.length
    rw [List.length_append, List.length_singleton]
    omega
  rw [hidx]
  have hpres := runActs_preserves body s₁
  have hlen₂ : (s₁.runActs body).llm_calls.length = s.llm_calls.length + 1 := by
    rw [hpres.2.2.2.1]
    show (s.llm_calls ++ [rec₀]).length = s.llm_calls.length + 1
    rw [List.length_append, List.length_singleton]
  have hrec₁ : s₁.llm_calls[s.llm_calls.length]? = some rec₀ := by
    show (s.llm_calls ++ [rec₀])[s.llm_calls.length]? = some rec₀
    rw [List.getElem?_concat_length]
  have hmap := hpres.2.2.2.2.2 s.llm_calls.length
  rw [hrec₁] at hmap
  obtain ⟨c₂, hc₂, hfields⟩ : ∃ c₂, (s₁.runActs body).llm_calls[s.llm_calls.length]?
      = some c₂ ∧ callFields c₂ = callFields rec₀ := by
    cases hx : (s₁.runActs body).llm_calls[s.llm_calls.length]? with
    | none => rw [hx] at hmap; exact absurd hmap (by simp)
    | some c₂ =>
      rw [hx] at hmap
      exact ⟨c₂, rfl, by simpa using hmap⟩
  have hfin : (s₁.runActs body).llm_call_finish s.llm_calls.length true dur =
      { s₁.runActs body with
        llm_calls := (s₁.runActs body).llm_calls.set s.llm_calls.length
          { c₂ with status := "failed", duration_ms := some dur },
        current_call := none } := by
    simp only [Session.llm_call_finish, hc₂, if_pos]
  rw [hfin]
  refine ⟨{ c₂ with status := "failed", duration_ms := some dur }, ?_, rfl, rfl, ?_, ?_, ?_⟩
  · show ((s₁.runActs body).llm_calls.set s.llm_calls.length _)[s.llm_calls.length]?
      = some _
    rw [List.getElem?_set, if_pos rfl, if_pos (by omega)]
  · show c₂.checkpoint_id = checkpointIdOf (checkpointNameOf model descr) ts
    have := congrArg (fun q => q.2.1) hfields
    simpa [callFields] using this
  all_goals {
    have hcpget : dget? cm₂.checkpoints (checkpointIdOf (checkpointNameOf model descr) ts)
        = some (Checkpoint.create ts (checkpointNameOf model descr)
          ("Auto-checkpoint before LLM call: " ++ prompt.take 100 ++ "...")
          (some ((some s.tracked_files).getD s.checkpoint_manager.current_state))
          (some [("call_id", formatCallId (s.call_counter + 1)), ("model", model),
                 ("type", "pre-llm-call")])) := by
      rw [hcm₂]
      exact create_checkpoint_get s.checkpoint_manager ts (checkpointNameOf model descr)
        _ _ _ hmax hfreshO hfreshK
    have hcm₂eq : (s₁.runActs body).checkpoint_manager.checkpoints = cm₂.checkpoints :=
      hpres.1
    have hid₂ : c₂.checkpoint_id = checkpointIdOf (checkpointNameOf model descr) ts := by
      have := congrArg (fun q => q.2.1) hfields
      simpa [callFields] using this
    have hget₂ : dget? (s₁.runActs body).checkpoint_manager.checkpoints
        ({ c₂ with status := "failed", duration_ms := some dur } : LLMCall).checkpoint_id
        = some (Checkpoint.create ts (checkpointNameOf model descr)
          ("Auto-checkpoint before LLM call: " ++ prompt.take 100 ++ "...")
          (some ((some s.tracked_files).getD s.checkpoint_manager.current_state))
          (some [("call_id", formatCallId (s.call_counter + 1)), ("model", model),
                 ("type", "pre-llm-call")])) := by
      show dget? (s₁.runActs body).checkpoint_manager.checkpoints c₂.checkpoint_id = _
      rw [hcm₂eq, hid₂]
      exact hcpget
    first
    | exact ⟨_, by
        show dget? (s₁.runActs body).checkpoint_manager.checkpoints _ = _
        exact hget₂⟩
    | exact ⟨_, _, by
        show (s₁.runActs body).checkpoint_manager.restore_checkpoint _ none = _
        simp only [CheckpointManager.restore_checkpoint, hget₂]
        rfl⟩
  }

/-! ## Snapshot hash and size (C7) -/

/-- C7 counterexample: the source sets `size = len(self.content)`, the
number of characters, not the byte length of the content. They differ on
any non-ASCII content such as `"é"` (1 character, 2 UTF-8 bytes). -/
theorem snapshot_size_counterexample :
    ¬ ((mkFileSnapshot "f" "é").size = (utf8Bytes "é").length) := by
  decide

/-- C7 amended: a snapshot's hash is the first 40 hex characters of the
SHA-256 digest of the UTF-8 content bytes, and its size is the character
count (`len` on a Python `str`) of the content — not its byte length; both
are pure functions of the content alone, so snapshots of identical content
agree on hash and size regardless of path or creation context. -/
theorem snapshot_hash_size_spec (path content : String) :
    (mkFileSnapshot path content).sha = (hexdigest (sha256 (utf8Bytes content))).take 40 ∧
    (mkFileSnapshot path content).size = content.length ∧
    ∀ path₂ : String,
      (mkFileSnapshot path₂ content).sha = (mkFileSnapshot path content).sha ∧
      (mkFileSnapshot path₂ content).size = (mkFileSnapshot path content).size := by
  refine ⟨?_, ?_, fun path₂ => ⟨rfl, rfl⟩⟩
  · simp only [mkFileSnapshot, FileSnapshot.make, sha256HexOfString]
  · simp [mkFileSnapshot, FileSnapshot.make]

/-! ## Restore idempotence (C8) -/

/-- C8: restoring a checkpoint created from `{"a": orig}`, then overwriting
the live state at `"a"`, then restoring the same id again, returns
`{"a": orig}` both times — the result is independent of the intervening
mutation. Needs capacity at least 1, otherwise the checkpoint is evicted
at creation. -/
theorem restore_idempotent (maxc : Nat) (hmax : 1 ≤ maxc)
    (ts name desc orig changed : String) :
    ∃ m₂ m₄,
      ((CheckpointManager.init maxc).create_checkpoint ts name desc
        (some [("a", orig)]) none).2.restore_checkpoint
        ((CheckpointManager.init maxc).create_checkpoint ts name desc
          (some [("a", orig)]) none).1.id none = .ok ([("a", orig)], m₂) ∧
      (m₂.update_current_state "a" changed).restore_checkpoint
        ((CheckpointManager.init maxc).create_checkpoint ts name desc
          (some [("a", orig)]) none).1.id none = .ok ([("a", orig)], m₄) := by
  have hm₁ : ((CheckpointManager.init maxc).create_checkpoint ts name desc
      (some [("a", orig)]) none).2 =
      { max_checkpoints := maxc,
        checkpoints := [(checkpointIdOf name ts,
          Checkpoint.create ts name desc (some [("a", orig)]) none)],
        checkpoint_order := [checkpointIdOf name ts],
        current_state := [] } := by
    rw [create_checkpoint_unfold]
    simp only [CheckpointManager.init, Option.getD]
    rw [dinsert_of_not_mem _ (by simp [dkeys])]
    simp only [CheckpointManager.enforce_max_checkpoints, List.nil_append]
    rw [enforceGo, if_neg (by simp only [List.length_singleton]; omega)]
  have hid : ((CheckpointManager.init maxc).create_checkpoint ts name desc
      (some [("a", orig)]) none).1.id = checkpointIdOf name ts :=
    create_checkpoint_fst_id _ _ _ _ _ _
  have hfiles : (Checkpoint.create ts name desc (some [("a", orig)]) none).files
      = [("a", mkFileSnapshot "a" orig)] := by
    simp only [Checkpoint.create, List.map_cons, List.map_nil]
  have hget : dget? [(checkpointIdOf name ts,
      Checkpoint.create ts name desc (some [("a", orig)]) none)]
      (checkpointIdOf name ts)
      = some (Checkpoint.create ts name desc (some [("a", orig)]) none) := by
    rw [dget?, if_pos rfl]
  have hfold : ∀ cs : Dict String,
      List.foldl (restoreStep (Checkpoint.create ts name desc (some [("a", orig)]) none))
        ([], cs)
        (filesToRestore (Checkpoint.create ts name desc (some [("a", orig)]) none) none)
      = ([("a", orig)], dinsert cs "a" orig) := by
    intro cs
    have hreq : filesToRestore (Checkpoint.create ts name desc (some [("a", orig)]) none)
        none = ["a"] := by
      simp only [filesToRestore, Checkpoint.list_files, hfiles, dkeys, List.map_cons,
        List.map_nil]
    rw [hreq, List.foldl_cons, List.foldl_nil]
    have hgf : (Checkpoint.create ts name desc (some [("a", orig)]) none).get_file "a"
        = some (mkFileSnapshot "a" orig) := by
      show dget? (Checkpoint.create ts name desc (some [("a", orig)]) none).files "a" = _
      rw [hfiles, dget?, if_pos rfl]
    simp only [restoreStep, hgf]
    have hcontent : (mkFileSnapshot "a" orig).content = orig := rfl
    rw [hcontent, dinsert_of_not_mem orig (show "a" ∉ dkeys ([] : Dict String) by
      simp [dkeys]), List.nil_append]
  refine ⟨⟨maxc, [(checkpointIdOf name ts,
      Checkpoint.create ts name desc (some [("a", orig)]) none)],
      [checkpointIdOf name ts], [("a", orig)]⟩,
    ⟨maxc, [(checkpointIdOf name ts,
      Checkpoint.create ts name desc (some [("a", orig)]) none)],
      [checkpointIdOf name ts], [("a", orig)]⟩, ?_, ?_⟩
  · rw [hid, hm₁]
    simp only [CheckpointManager.restore_checkpoint, hget]
    rw [hfold []]
    simp [dinsert, dcontains, dget?]
  · rw [hid]
    simp only [CheckpointManager.update_current_state,
      CheckpointManager.restore_checkpoint, hget]
    rw [hfold (dinsert [("a", orig)] "a" changed)]
    simp [dinsert, dcontains, dget?]

/-! ## Nested brackets (C9) -/

/-- C9 amended: beginning a second bracketed operation while one is still
pending is silently allowed — the second begin appends another `pending`
record and becomes the current call; no rejection path exists. -/
theorem nested_begin_silently_allowed (s : Session) (ts model prompt : String)
    (descr : Option String) (i : Nat) (_hactive : s.current_call = some i) :
    (s.llm_call_begin ts model prompt descr).1.llm_calls.length
        = s.llm_calls.length + 1 ∧
    ((s.llm_call_begin ts model prompt descr).1.llm_calls[s.llm_calls.length]?).map
        LLMCall.status = some "pending" ∧
    (s.llm_call_begin ts model prompt descr).1.current_call
        = some s.llm_calls.length := by
  refine ⟨?_, ?_, rfl⟩
  · show (s.llm_calls ++ [_]).length = s.llm_calls.length + 1
    rw [List.length_append, List.length_singleton]
  · show ((s.llm_calls ++ [_])[s.llm_calls.length]?).map LLMCall.status = _
    rw [List.getElem?_concat_length]
    rfl

/-! ## Empty path list on restore (C10) -/

/-- C10: passing an explicitly empty `paths` list to `restore_checkpoint`
behaves exactly like omitting the argument — Python's `paths or
checkpoint.list_files()` treats `[]` as falsy — so every file of the
checkpoint is restored, returned, and written into the current state. -/
theorem restore_empty_paths (m : CheckpointManager) (cid : String) :
    m.restore_checkpoint cid (some []) = m.restore_checkpoint cid none ∧
    ∀ cp, dget? m.checkpoints cid = some cp → (dkeys cp.files).Nodup →
      ∃ r m', m.restore_checkpoint cid (some []) = .ok (r, m') ∧
        ∀ p snap, (p, snap) ∈ cp.files →
          dget? r p = some snap.content ∧
          dget? m'.current_state p = some snap.content := by
  constructor
  · cases hge : dget? m.checkpoints cid with
    | none => simp only [CheckpointManager.restore_checkpoint, hge]
    | some cp =>
      simp only [CheckpointManager.restore_checkpoint, hge, filesToRestore,
        List.isEmpty_nil, if_true]
  · intro cp hcp hnd
    refine ⟨(List.foldl (restoreStep cp) ([], m.current_state)
        (filesToRestore cp (some []))).1,
      { m with current_state := (List.foldl (restoreStep cp) ([], m.current_state)
          (filesToRestore cp (some []))).2 },
      by simp only [CheckpointManager.restore_checkpoint, hcp], ?_⟩
    intro p snap hmem
    have hgf : cp.get_file p = some snap := by
      show dget? cp.files p = some snap
      exact dget?_eq_of_mem_nodup hnd hmem
    have hmemk : p ∈ filesToRestore cp (some []) := by
      show p ∈ if ([] : List String).isEmpty then cp.list_files else []
      rw [if_pos (show ([] : List String).isEmpty = true from rfl)]
      exact List.mem_map.mpr ⟨(p, snap), hmem, rfl⟩
    constructor
    · rw [restore_foldl_fst cp _ _ p, if_pos ⟨hmemk, by rw [hgf]; rfl⟩, hgf]
      rfl
    · show dget? (List.foldl (restoreStep cp) ([], m.current_state)
          (filesToRestore cp (some []))).2 p = some snap.content
      rw [restore_foldl_snd cp _ _ p, if_pos ⟨hmemk, by rw [hgf]; rfl⟩, hgf]
      rfl

/-! ## Witnesses: the theorems applied at concrete inputs -/

theorem fifo_capacity_eviction_witness :
    (fifoInputs.map CreateInput.genId).Nodup ∧
    ((runCreates (CheckpointManager.init 2) fifoInputs).checkpoint_order
        = (fifoInputs.map CreateInput.genId).drop (fifoInputs.length - 2) ∧
      dkeys (runCreates (CheckpointManager.init 2) fifoInputs).checkpoints
        = (fifoInputs.map CreateInput.genId).drop (fifoInputs.length - 2)) :=
  ⟨by decide, (fifo_capacity_eviction 2 fifoInputs (by decide)).2⟩

theorem order_map_consistency_witness :
    Reachable mC2 ∧
    (checkpointIdOf "n1" "t1" ∈ mC2.checkpoint_order ↔
      (dget? mC2.checkpoints (checkpointIdOf "n1" "t1")).isSome) := by
  have hR : Reachable mC2 :=
    Reachable.create (CheckpointManager.init 3) "t1" "n1" "" (some [("a", "x")]) none
      (Reachable.init 3) (by simp [CheckpointManager.init])
  exact ⟨hR, order_map_consistency mC2 hR (checkpointIdOf "n1" "t1")⟩

theorem restore_checkpoint_spec_witness :
    dget? mC3.checkpoints cpC3.id = some cpC3 ∧
    (∃ r m', mC3.restore_checkpoint cpC3.id (some ["a", "zzz"]) = .ok (r, m') ∧
      m'.checkpoints = mC3.checkpoints ∧
      m'.checkpoint_order = mC3.checkpoint_order ∧
      (∀ p, dget? r p =
        if p ∈ filesToRestore cpC3 (some ["a", "zzz"]) ∧ (cpC3.get_file p).isSome
        then (cpC3.get_file p).map FileSnapshot.content else none) ∧
      (∀ p, dget? m'.current_state p =
        if p ∈ filesToRestore cpC3 (some ["a", "zzz"]) ∧ (cpC3.get_file p).isSome
        then (cpC3.get_file p).map FileSnapshot.content
        else dget? mC3.current_state p)) :=
  ⟨by decide, (restore_checkpoint_spec mC3 cpC3.id (some ["a", "zzz"])).2 cpC3 (by decide)⟩

theorem diff_checkpoint_spec_witness :
    dget? mC4.checkpoints cpC4.id = some cpC4 ∧
    (dkeys cpC4.files).Nodup ∧
    (dkeys ((some liveC4).getD mC4.current_state)).Nodup ∧
    (∃ d, mC4.diff_checkpoint cpC4.id (some liveC4) = .ok d ∧
      ∀ p, dget? d p =
        match dget? cpC4.files p, dget? ((some liveC4).getD mC4.current_state) p with
        | some snap, some c =>
            if c ≠ snap.content then some ⟨"modified", some snap.content, some c⟩
            else none
        | some snap, none => some ⟨"deleted", some snap.content, none⟩
        | none, some c => some ⟨"added", none, some c⟩
        | none, none => none) :=
  ⟨by decide, by decide, by decide,
    (diff_checkpoint_spec mC4 cpC4.id (some liveC4)).2 cpC4 (by decide) (by decide)
      (by decide)⟩

theorem serialize_roundtrip_witness :
    (dkeys mC5.checkpoints).Nodup ∧ ManagerWF mC5 ∧
    CheckpointManager.from_json mC5.to_json 50 = { mC5 with max_checkpoints := 50 } :=
  ⟨by decide, by decide, serialize_roundtrip mC5 50 (by decide) (by decide)⟩

theorem failed_body_bookkeeping_witness :
    1 ≤ (Session.init 100).checkpoint_manager.max_checkpoints ∧
    checkpointIdOf (checkpointNameOf "m" none) "t0" ∉
      (Session.init 100).checkpoint_manager.checkpoint_order ∧
    checkpointIdOf (checkpointNameOf "m" none) "t0" ∉
      dkeys (Session.init 100).checkpoint_manager.checkpoints ∧
    (((Session.init 100).llm_call "t0" "m" "p" none
        [SessionAct.track "app.py" "v2"] (some "boom") 42).2 = some "boom" ∧
     ∃ call,
      ((Session.init 100).llm_call "t0" "m" "p" none
        [SessionAct.track "app.py" "v2"] (some "boom") 42).1.llm_calls[
          (Session.init 100).llm_calls.length]? = some call ∧
      call.status = "failed" ∧
      call.duration_ms = some 42 ∧
      call.checkpoint_id = checkpointIdOf (checkpointNameOf "m" none) "t0" ∧
      (∃ cp, ((Session.init 100).llm_call "t0" "m" "p" none
          [SessionAct.track "app.py" "v2"] (some "boom") 42).1.checkpoint_manager.get_checkpoint
          call.checkpoint_id = some cp) ∧
      ∃ rr m', ((Session.init 100).llm_call "t0" "m" "p" none
          [SessionAct.track "app.py" "v2"] (some "boom") 42).1.checkpoint_manager.restore_checkpoint
          call.checkpoint_id none = .ok (rr, m')) :=
  ⟨by decide, by simp [Session.init, CheckpointManager.init, dkeys],
    by simp [Session.init, CheckpointManager.init, dkeys],
    failed_body_bookkeeping (Session.init 100) "t0" "m" "p" none
      [SessionAct.track "app.py" "v2"] "boom" 42 (by decide)
      (by simp [Session.init, CheckpointManager.init, dkeys])
      (by simp [Session.init, CheckpointManager.init, dkeys])⟩

/-- C9 counterexample: with one operation still `pending`, a second
`llm_call` bracket entry succeeds — it appends a second `pending` record
and becomes the current call — rather than being rejected with any
`OperationAlreadyActive` error (no such rejection exists in the source). -/
theorem nested_begin_counterexample :
    nestedSession1.llm_calls.map LLMCall.status = ["pending"] ∧
    nestedSession2.llm_calls.map LLMCall.status = ["pending", "pending"] ∧
    nestedSession2.current_call = some 1 ∧
    ¬ (nestedSession2.llm_calls.length = nestedSession1.llm_calls.length) := by
  decide

theorem nested_begin_silently_allowed_witness :
    nestedSession1.current_call = some 0 ∧
    ((nestedSession1.llm_call_begin "t2" "m" "p2" none).1.llm_calls.length
        = nestedSession1.llm_calls.length + 1 ∧
     ((nestedSession1.llm_call_begin "t2" "m" "p2" none).1.llm_calls[
        nestedSession1.llm_calls.length]?).map LLMCall.status = some "pending" ∧
     (nestedSession1.llm_call_begin "t2" "m" "p2" none).1.current_call
        = some nestedSession1.llm_calls.length) :=
  ⟨by decide,
    nested_begin_silently_allowed nestedSession1 "t2" "m" "p2" none 0 (by decide)⟩

theorem restore_idempotent_witness :
    1 ≤ 2 ∧
    (∃ m₂ m₄,
      ((CheckpointManager.init 2).create_checkpoint "tw" "nw" ""
        (some [("a", "orig")]) none).2.restore_checkpoint
        ((CheckpointManager.init 2).create_checkpoint "tw" "nw" ""
          (some [("a", "orig")]) none).1.id none = .ok ([("a", "orig")], m₂) ∧
      (m₂.update_current_state "a" "changed").restore_checkpoint
        ((CheckpointManager.init 2).create_checkpoint "tw" "nw" ""
          (some [("a", "orig")]) none).1.id none = .ok ([("a", "orig")], m₄)) :=
  ⟨by decide, restore_idempotent 2 (by decide) "tw" "nw" "" "orig" "changed"⟩

theorem restore_empty_paths_witness :
    dget? mC10.checkpoints cpC10.id = some cpC10 ∧
    (dkeys cpC10.files).Nodup ∧
    (∃ r m', mC10.restore_checkpoint cpC10.id (some []) = .ok (r, m') ∧
      ∀ p snap, (p, snap) ∈ cpC10.files →
        dget? r p = some snap.content ∧
        dget? m'.current_state p = some snap.content) :=
  ⟨by decide, by decide,
    (restore_empty_paths mC10 cpC10.id).2 cpC10 (by decide) (by decide)⟩

end ShadowFS
